import Mathlib

/-! Chat server (`server.c`): shallow embedding and verified properties.

The embedding follows `server.c` function by function.

* A byte is a natural number (`0` is NUL, `10` is `\n`, `13` is `\r`, `32` is a space).
* `clients_by_fd` is a function from slot index to an optional client record; a
  `client_t *` is the index of the slot that holds the record.
* A `char` array is represented by the bytes that have been written to it.  Reading
  past those bytes (or writing outside the array) is undefined behaviour in C and is
  reported as `Fault.undefined`.
* `safe_send(fd, msg, len)` is recorded as the event "the first `len` bytes of `msg`
  were handed to the socket `fd`".  How many of them the kernel accepts is decided by
  the peer and is outside the embedding.
* `read()` results are inputs supplied by the environment.
-/

namespace ChatServer

/-! ## Constants and data model -/

abbrev Byte := Nat

def BUF_SIZE : Nat := 4096
def MAX_FDS : Nat := 10000
def MAX_NAME : Nat := 32

/-- The record `client_t`: `name` is the C string held in `name[MAX_NAME]`, `buf` is
`buf[0 .. buf_len)`, so `buf_len` is `buf.length`. -/
structure Client where
  fd : Int
  name : List Byte
  buf : List Byte
deriving DecidableEq

/-- The table `clients_by_fd`. -/
abbrev Registry := Nat → Option Client

/-- One call `safe_send(fd, msg, len)`: `data` is the `len` bytes handed over. -/
structure Event where
  fd : Int
  data : List Byte
deriving DecidableEq

inductive Fault where
  | undefined
  | fuel
deriving DecidableEq

/-- ASCII text as bytes. -/
def str (s : String) : List Byte := s.toList.map Char.toNat

/-! ## C string primitives -/

/-- The C string that starts at a pointer: the bytes before the first NUL. -/
def cstr (s : List Byte) : List Byte := s.takeWhile (fun b => decide (b ≠ 0))

def strlen (s : List Byte) : Nat := (cstr s).length

/-- Truth of `strncmp(a, b, n) == 0`. -/
def strncmp_zero (a b : List Byte) (n : Nat) : Bool :=
  decide ((cstr a).take n = (cstr b).take n)

/-- Truth of `strcmp(a, b) == 0`. -/
def strcmp_zero (a b : List Byte) : Bool := decide (cstr a = cstr b)

/-- The byte `*p` of a NUL-terminated string. -/
def deref (p : List Byte) : Byte := p.headD 0

/-- Result of `strchr(s, ch)` for `ch ≠ 0` as an offset from `s`: the search stops at the
first NUL; the bytes `s` are followed by a NUL terminator. -/
def strchr : List Byte → Byte → Option Nat
  | [], _ => none
  | b :: s, ch =>
    if b = ch then some 0
    else if b = 0 then none
    else (strchr s ch).map (fun k => k + 1)

/-- The call `snprintf(buf + pos, cap - pos, ...)` on a `char buf[cap]` whose written
bytes are `buf`; `text` is the formatted output.  Returns the written bytes of the array
and `pos` advanced by the return value of `snprintf` (the untruncated length).  For
`pos > cap` the size argument wraps around and the write lands outside the array. -/
def snprintf_at (buf : List Byte) (cap pos : Nat) (text : List Byte) :
    Except Fault (List Byte × Nat) :=
  if pos > cap then .error .undefined
  else if cap - pos = 0 then .ok (buf, pos + text.length)
  else .ok (buf.take pos ++ text.take (cap - pos - 1) ++ [0], pos + text.length)

/-- The call `snprintf(buf, cap, ...)` on a fresh `char buf[cap]`. -/
def snprintf (cap : Nat) (text : List Byte) : Except Fault (List Byte × Nat) :=
  snprintf_at [] cap 0 text

/-! ## Sending -/

/-- The function `safe_send`: `len` bytes are read from `msg`; reading beyond the written
part of the array is undefined. -/
def safe_send (fd : Int) (msg : List Byte) (len : Nat) : Except Fault Event :=
  if len ≤ msg.length then .ok ⟨fd, msg.take len⟩ else .error .undefined

def send_to_client (c : Option Client) (msg : List Byte) (len : Nat) :
    Except Fault (List Event) :=
  match c with
  | none => .ok []
  | some c =>
    match safe_send c.fd msg len with
    | .error e => .error e
    | .ok ev => .ok [ev]

/-- Body of the `for` loop of `broadcast_except` over the slot indices `is`. -/
def broadcast_loop (reg : Registry) (except_fd : Int) (msg : List Byte) (len : Nat) :
    List Nat → Except Fault (List Event)
  | [] => .ok []
  | i :: is =>
    match reg i with
    | none => broadcast_loop reg except_fd msg len is
    | some c =>
      if c.fd = except_fd then broadcast_loop reg except_fd msg len is
      else
        match safe_send c.fd msg len with
        | .error e => .error e
        | .ok ev =>
          match broadcast_loop reg except_fd msg len is with
          | .error e => .error e
          | .ok evs => .ok (ev :: evs)

def broadcast_except (reg : Registry) (except_fd : Int) (msg : List Byte) (len : Nat) :
    Except Fault (List Event) :=
  broadcast_loop reg except_fd msg len (List.range MAX_FDS)

/-! ## Registry operations -/

def remove_client (reg : Registry) (c : Option Client) : Registry :=
  match c with
  | none => reg
  | some c =>
    if 0 ≤ c.fd ∧ c.fd < MAX_FDS then Function.update reg c.fd.toNat none else reg

def add_client (reg : Registry) (fd : Int) : Registry × Option Client :=
  if fd < 0 ∨ fd ≥ MAX_FDS then (reg, none)
  else
    let c : Client := ⟨fd, [], []⟩
    (Function.update reg fd.toNat (some c), some c)

def find_by_name (reg : Registry) (name : List Byte) : Option Client :=
  (List.range MAX_FDS).findSome? (fun i =>
    match reg i with
    | none => none
    | some c => if c.name ≠ [] ∧ strcmp_zero c.name name then some c else none)

/-! ## `process_line` -/

/-- The loop `while (L > 0 && (line[L-1] == '\n' || line[L-1] == '\r')) L--`. -/
def strip_len (line : List Byte) : Nat → Nat
  | 0 => 0
  | L + 1 => if line.getD L 0 = 10 ∨ line.getD L 0 = 13 then strip_len line L else L + 1

/-- The local `tmp` of `process_line`. -/
def tmp_of (line : List Byte) : List Byte :=
  let L := strip_len line (strlen line)
  let L := if L ≥ BUF_SIZE + 1 then BUF_SIZE else L
  line.take L

/-- The loop `while (*p && *p != ' ' && ri < (MAX_NAME-1)) recipient[ri++] = *p++`:
returns the bytes stored in `recipient` and the final `p`. -/
def scan_recipient : List Byte → Nat → List Byte × List Byte
  | [], _ => ([], [])
  | b :: p, ri =>
    if b ≠ 0 ∧ b ≠ 32 ∧ ri < MAX_NAME - 1 then
      ((b :: (scan_recipient p (ri + 1)).1), (scan_recipient p (ri + 1)).2)
    else ([], b :: p)

/-- The loop `while (*p == ' ') p++`. -/
def skip_spaces (p : List Byte) : List Byte := p.dropWhile (fun b => decide (b = 32))

/-- The `for` loop of the `/list` branch over the slot indices `is`; the state is the
written part of `listbuf` and `pos`. -/
def list_loop (reg : Registry) : List Nat → List Byte × Nat → Except Fault (List Byte × Nat)
  | [], s => .ok s
  | i :: is, s =>
    match reg i with
    | none => list_loop reg is s
    | some cc =>
      if cc.name ≠ [] then
        match snprintf_at s.1 4096 s.2 (str " - " ++ cstr cc.name ++ str "\n") with
        | .error e => .error e
        | .ok s1 => list_loop reg is s1
      else list_loop reg is s

def lit_invalid : List Byte := str "SERVER: invalid nickname\n"
def lit_taken : List Byte := str "SERVER: username taken, disconnecting\n"
def lit_prompt : List Byte := str "SERVER: please set nickname with: NICK <name>\n"
def lit_usage : List Byte := str "SERVER: usage: /msg <user> <text>\n"
def lit_empty : List Byte := str "SERVER: empty message\n"
def lit_notfound : List Byte := str "SERVER: user not found\n"
def lit_unknown : List Byte := str "SERVER: unknown command\n"

/-- A string literal as an array: its bytes and the terminating NUL. -/
def literal (s : List Byte) : List Byte := s ++ [0]

/-- Sends the reply and leaves the registry as it is. -/
def reply (reg : Registry) (c : Client) (msg : List Byte) (len : Nat) :
    Except Fault (Registry × List Event) :=
  match send_to_client (some c) msg len with
  | .error e => .error e
  | .ok evs => .ok (reg, evs)

/-- The function `process_line(epfd, c, line)`, where `c = clients_by_fd[ci]`. -/
def process_line (reg : Registry) (ci : Nat) (line : List Byte) :
    Except Fault (Registry × List Event) :=
  match reg ci with
  | none => .error .undefined
  | some c =>
    let tmp := tmp_of line
    if c.name = [] then
      if strncmp_zero tmp (str "NICK ") 5 then
        let nick := tmp.drop 5
        if strlen nick = 0 then reply reg c (literal lit_invalid) 24
        else if (find_by_name reg nick).isSome then reply reg c (literal lit_taken) 38
        else
          let c1 : Client := { c with name := (cstr nick).take (MAX_NAME - 1) }
          let reg1 := Function.update reg ci (some c1)
          match snprintf 128 (str "SERVER: welcome " ++ cstr c1.name ++ str "\n") with
          | .error e => .error e
          | .ok (welcome, n) =>
            match send_to_client (some c1) welcome n with
            | .error e => .error e
            | .ok ev1 =>
              match snprintf 128 (str "SERVER: " ++ cstr c1.name ++ str " has joined\n") with
              | .error e => .error e
              | .ok (joinmsg, m) =>
                match broadcast_except reg1 c1.fd joinmsg m with
                | .error e => .error e
                | .ok ev2 => .ok (reg1, ev1 ++ ev2)
      else reply reg c (literal lit_prompt) (strlen (literal lit_prompt))
    else if deref tmp = 47 then
      if strncmp_zero tmp (str "/quit") 5 then
        match snprintf 128 (str "SERVER: " ++ cstr c.name ++ str " disconnected\n") with
        | .error e => .error e
        | .ok (out, n) =>
          match broadcast_except reg c.fd out n with
          | .error e => .error e
          | .ok evs => .ok (reg, evs)
      else if strncmp_zero tmp (str "/list") 5 then
        match snprintf_at [] 4096 0 (str "SERVER: active users:\n") with
        | .error e => .error e
        | .ok s0 =>
          match list_loop reg (List.range MAX_FDS) s0 with
          | .error e => .error e
          | .ok (listbuf, pos) => reply reg c listbuf pos
      else if strncmp_zero tmp (str "/msg ") 5 then
        let p0 := tmp.drop 5
        let recipient := (scan_recipient p0 0).1
        let p1 := (scan_recipient p0 0).2
        if recipient.length = 0 then reply reg c (literal lit_usage) 33
        else
          let p := skip_spaces p1
          if deref p = 0 then reply reg c (literal lit_empty) 22
          else
            match find_by_name reg recipient with
            | none => reply reg c (literal lit_notfound) 23
            | some dest =>
              match snprintf BUF_SIZE
                  (str "[Private from " ++ cstr c.name ++ str "]: " ++ cstr p ++ str "\n") with
              | .error e => .error e
              | .ok (pm, n) =>
                match send_to_client (some dest) pm n with
                | .error e => .error e
                | .ok ev1 =>
                  match snprintf 128
                      (str "[Private to " ++ cstr recipient ++ str "]: " ++ cstr p ++ str "\n") with
                  | .error e => .error e
                  | .ok (ack, m) =>
                    match send_to_client (some c) ack m with
                    | .error e => .error e
                    | .ok ev2 => .ok (reg, ev1 ++ ev2)
      else reply reg c (literal lit_unknown) 23
    else
      match snprintf (BUF_SIZE + 64) (str "[" ++ cstr c.name ++ str "]: " ++ cstr tmp ++ str "\n") with
      | .error e => .error e
      | .ok (out, n) =>
        match broadcast_except reg c.fd out n with
        | .error e => .error e
        | .ok evs => .ok (reg, evs)

/-! ## The reactor: `main` -/

/-- Lines 249–272 of `main`: one successful `accept` returning `client_fd ≥ 0`;
`epoll_ok` tells whether `epoll_ctl(EPOLL_CTL_ADD)` succeeded. -/
def accept_client (reg : Registry) (client_fd : Int) (epoll_ok : Bool) :
    Except Fault (Registry × List Event) :=
  if client_fd ≥ MAX_FDS then .ok (reg, [])
  else
    match add_client reg client_fd with
    | (_, none) => .ok (reg, [])
    | (reg1, some c) =>
      if epoll_ok then reply reg1 c (literal lit_prompt) 44
      else .ok (remove_client reg1 (some c), [])

/-- Lines 314–319 of `main`: the call of `process_line` on a framed line and the check
for `/quit` that follows it.  The flag tells whether the client was removed. -/
def dispatch_line (reg : Registry) (ci : Nat) (line : List Byte) :
    Except Fault (Registry × List Event × Bool) :=
  match process_line reg ci line with
  | .error e => .error e
  | .ok (reg1, evs) =>
    if strncmp_zero line (str "/quit") 5 then .ok (remove_client reg1 (reg1 ci), evs, true)
    else .ok (reg1, evs, false)

/-- What the line extraction loop leaves behind: `calls` lists the arguments `line` of
the calls of `process_line`, in order; `start` is the offset of the pointer `start` at
the end of the loop, or `none` after the `goto cont_outer`. -/
structure LoopOut where
  reg : Registry
  events : List Event
  calls : List (List Byte)
  start : Option Nat

/-- The loop `while ((newline = strchr(start, '\n')) != NULL)` on the buffer `buf`
(followed by its NUL terminator); `start` is an offset into `buf`.  Every round moves
`start` forward, so `buf.length + 1` rounds of fuel are never used up. -/
def line_loop : Nat → Registry → Nat → List Byte → Nat → Except Fault LoopOut
  | 0, _, _, _, _ => .error .fuel
  | fuel + 1, reg, ci, buf, start =>
    match strchr (buf.drop start) 10 with
    | none => .ok ⟨reg, [], [], some start⟩
    | some k =>
      let linelen := if k + 1 > BUF_SIZE then BUF_SIZE else k + 1
      let line := (buf.drop start).take linelen
      match dispatch_line reg ci line with
      | .error e => .error e
      | .ok (reg1, evs, true) => .ok ⟨reg1, evs, [line], none⟩
      | .ok (reg1, evs, false) =>
        match line_loop fuel reg1 ci buf (start + k + 1) with
        | .error e => .error e
        | .ok out => .ok ⟨out.reg, evs ++ out.events, line :: out.calls, out.start⟩

/-- What `read` returned: `-1` with `errno` (`again` for `EAGAIN`/`EWOULDBLOCK`), or a
count together with the bytes stored at `c->buf + c->buf_len`. -/
inductive ReadResult where
  | error (again : Bool)
  | count (data : List Byte)

/-- The size `sizeof(c->buf) - c->buf_len - 1` passed to `read`, a `size_t`. -/
def read_size (c : Client) : Nat :=
  (((BUF_SIZE : Int) - (c.buf.length : Int) - 1) % 2 ^ 64).toNat

/-- What one round of the read loop leaves behind: `leftover` is the local of that name
when it was computed, `again` tells whether the `while (1)` goes round again. -/
structure IterOut where
  reg : Registry
  events : List Event
  calls : List (List Byte)
  leftover : Option Int
  again : Bool

/-- One round of the read loop of `main` (lines 287–329) for `c = clients_by_fd[ci]`. -/
def read_iter (reg : Registry) (ci : Nat) (r : ReadResult) : Except Fault IterOut :=
  match reg ci with
  | none => .error .undefined
  | some c =>
    match r with
    | .error true => .ok ⟨reg, [], [], none, false⟩
    | .error false => .ok ⟨remove_client reg (some c), [], [], none, false⟩
    | .count data =>
      if data.length = 0 then
        if c.name ≠ [] then
          match snprintf 128 (str "SERVER: " ++ cstr c.name ++ str " disconnected\n") with
          | .error e => .error e
          | .ok (msg, n) =>
            match broadcast_except reg c.fd msg n with
            | .error e => .error e
            | .ok evs => .ok ⟨remove_client reg (some c), evs, [], none, false⟩
        else .ok ⟨remove_client reg (some c), [], [], none, false⟩
      else
        let buf := c.buf ++ data
        let reg1 := Function.update reg ci (some { c with buf := buf })
        match line_loop (buf.length + 1) reg1 ci buf 0 with
        | .error e => .error e
        | .ok out =>
          match out.start with
          | none => .ok ⟨out.reg, out.events, out.calls, none, false⟩
          | some start =>
            let leftover : Int := (buf.length : Int) - (start : Int)
            let moved := if leftover > 0 ∧ start ≠ 0 then buf.drop start else buf
            match out.reg ci with
            | none => .error .undefined
            | some c2 =>
              .ok ⟨Function.update out.reg ci (some { c2 with buf := moved.take leftover.toNat }),
                out.events, out.calls, some leftover, true⟩

/-- The read loop `while (1)` of `main`, fed with the results of the successive calls
of `read`.  When the results run out the socket has nothing more to deliver. -/
def read_loop (reg : Registry) (ci : Nat) :
    List ReadResult → Except Fault (Registry × List Event × List (List Byte))
  | [] => .ok (reg, [], [])
  | r :: rs =>
    match read_iter reg ci r with
    | .error e => .error e
    | .ok out =>
      if out.again then
        match read_loop out.reg ci rs with
        | .error e => .error e
        | .ok (reg2, evs, calls) => .ok (reg2, out.events ++ evs, out.calls ++ calls)
      else .ok (out.reg, out.events, out.calls)

/-- What `epoll_wait` reports: the listener accepted `client_fd`, or the client socket
`fd` is readable and its successive `read` calls return `rs`. -/
inductive Input where
  | accepted (client_fd : Int) (epoll_ok : Bool)
  | readable (fd : Int) (rs : List ReadResult)

/-- One event of the `for` loop of `main` (lines 241–334). -/
def step (reg : Registry) : Input → Except Fault (Registry × List Event)
  | .accepted client_fd epoll_ok => accept_client reg client_fd epoll_ok
  | .readable fd rs =>
    if fd < 0 ∨ fd ≥ MAX_FDS then .ok (reg, [])
    else
      match reg fd.toNat with
      | none => .ok (reg, [])
      | some _ =>
        match read_loop reg fd.toNat rs with
        | .error e => .error e
        | .ok (reg1, evs, _) => .ok (reg1, evs)

/-- A sequence of events, handled in order. -/
def run (reg : Registry) : List Input → Except Fault (Registry × List Event)
  | [] => .ok (reg, [])
  | i :: is =>
    match step reg i with
    | .error e => .error e
    | .ok (reg1, evs) =>
      match run reg1 is with
      | .error e => .error e
      | .ok (reg2, evs2) => .ok (reg2, evs ++ evs2)

/-- The fault of a computation, if it has one. -/
def fault_of {α : Type} (r : Except Fault α) : Option Fault :=
  match r with
  | .error e => some e
  | .ok _ => none

/-! ## Well-formed registries -/

/-- A stored nickname fits `name[MAX_NAME]` with its terminator and holds no NUL. -/
def name_ok (n : List Byte) : Prop := n.length ≤ MAX_NAME - 1 ∧ ∀ b ∈ n, b ≠ 0

/-- Every record sits in the slot of its own descriptor, inside the table, and its
nickname is a C string that fits the field. -/
def wf (reg : Registry) : Prop :=
  ∀ i c, reg i = some c → i < MAX_FDS ∧ c.fd = (i : Int) ∧ name_ok c.name

/-- The events of a broadcast of `text`: one per occupied slot whose descriptor differs
from `except_fd`, in slot order. -/
def broadcast_events (reg : Registry) (except_fd : Int) (text : List Byte) (is : List Nat) :
    List Event :=
  is.filterMap (fun i =>
    match reg i with
    | none => none
    | some c => if c.fd = except_fd then none else some ⟨c.fd, text⟩)

/-! ## Sample registries -/

/-- A registry with `alice` in slot 5, `bob` in slot 6 and an unregistered connection in
slot 7. -/
def reg_sample : Registry := fun i =>
  if i = 5 then some ⟨5, str "alice", []⟩
  else if i = 6 then some ⟨6, str "bob", []⟩
  else if i = 7 then some ⟨7, [], []⟩
  else none

/-! ## Observations on results -/

/-- The events of a computation that did not fault. -/
def events_of (r : Except Fault (Registry × List Event)) : Option (List Event) :=
  match r with
  | .ok (_, evs) => some evs
  | .error _ => none

/-- A registry where the nickname in slot 6 holds a space. -/
def reg_spaced : Registry := fun i =>
  if i = 5 then some ⟨5, str "alice", []⟩
  else if i = 6 then some ⟨6, str "bob smith", []⟩
  else none

/-- A registry with 117 registered connections in the slots 5 to 121, each with a
nickname of 31 bytes of its own (28 times `a` and the slot number in three digits). -/
def reg_crowd : Registry := fun i =>
  if 5 ≤ i ∧ i < 122 then
    some ⟨i, List.replicate 28 97 ++ [48 + i / 100, 48 + i / 10 % 10, 48 + i % 10], []⟩
  else none

/-- The roster entries `" - <name>\n"` of the registered connections in the slots `is`,
in that order. -/
def roster_text (reg : Registry) : List Nat → List Byte
  | [] => []
  | i :: is =>
    match reg i with
    | none => roster_text reg is
    | some cc =>
      if cc.name ≠ [] then str " - " ++ cstr cc.name ++ str "\n" ++ roster_text reg is
      else roster_text reg is

/-! ## Invariants of the inbound buffers -/

/-- Every slot of `r` is empty or holds a record with the descriptor and the inbound
buffer that the same slot of `reg` holds, and with a nickname that fits the field if the
old one did. -/
def keeps_records (reg r : Registry) : Prop :=
  ∀ i, r i = none ∨
    ∃ c c2, reg i = some c ∧ r i = some c2 ∧ c2.fd = c.fd ∧ c2.buf = c.buf ∧
      (name_ok c.name → name_ok c2.name)

/-- Every inbound buffer leaves room for the terminator: `buf_len ≤ BUF_SIZE - 1`. -/
def buf_bounded (reg : Registry) : Prop :=
  ∀ i c, reg i = some c → c.buf.length ≤ BUF_SIZE - 1

/-- The registries the server can be in: it starts with an empty table, accepts
connections, and runs rounds of the read loop in which `read` returns at most the number
of bytes it was asked for. -/
inductive Reachable : Registry → Prop where
  | init : Reachable (fun _ => none)
  | accept (reg : Registry) (client_fd : Int) (epoll_ok : Bool) (reg1 : Registry)
      (evs : List Event) :
      Reachable reg → accept_client reg client_fd epoll_ok = .ok (reg1, evs) → Reachable reg1
  | read (reg : Registry) (ci : Nat) (c : Client) (r : ReadResult) (out : IterOut) :
      Reachable reg → reg ci = some c →
      (∀ data, r = .count data → data.length ≤ read_size c) →
      read_iter reg ci r = .ok out → Reachable out.reg

/-- The registry after the first connection, with descriptor 5, was accepted. -/
def reg_fresh : Registry := Function.update (fun _ => none) 5 (some ⟨5, [], []⟩)

/-! # Theorems -/

/-! ## Lemmas on C strings -/

theorem cstr_no_nul (s : List Byte) : ∀ b ∈ cstr s, b ≠ 0 := by
  intro b hb
  have := List.mem_takeWhile_imp hb
  simpa using this

theorem cstr_of_no_nul {s : List Byte} (h : ∀ b ∈ s, b ≠ 0) : cstr s = s := by
  unfold cstr
  rw [List.takeWhile_eq_self_iff]
  intro b hb
  simpa using h b hb

theorem cstr_append_of_no_nul {s : List Byte} (h : ∀ b ∈ s, b ≠ 0) (t : List Byte) :
    cstr (s ++ t) = s ++ cstr t := by
  unfold cstr
  rw [List.takeWhile_append_of_pos]
  intro b hb
  simpa using h b hb

theorem cstr_initial (s : List Byte) : cstr s <+: s := List.takeWhile_prefix _

/-- For a NUL-free pattern `p`, `strncmp(a, p, |p|) == 0` says that `a` starts with `p`. -/
theorem strncmp_zero_iff_starts (a p : List Byte) (hp : ∀ b ∈ p, b ≠ 0) :
    strncmp_zero a p p.length = true ↔ p <+: a := by
  unfold strncmp_zero
  rw [cstr_of_no_nul hp]
  simp only [List.take_length, decide_eq_true_eq]
  constructor
  · intro h
    have h1 : (cstr a).take p.length <+: a := (List.take_prefix _ _).trans (cstr_initial a)
    rwa [h] at h1
  · rintro ⟨r, rfl⟩
    rw [cstr_append_of_no_nul hp]
    simp

theorem strip_len_le (line : List Byte) : ∀ L, strip_len line L ≤ L
  | 0 => by simp [strip_len]
  | L + 1 => by
    unfold strip_len
    split
    · exact Nat.le_succ_of_le (strip_len_le line L)
    · exact Nat.le_refl _

theorem tmp_of_initial_cstr (line : List Byte) : tmp_of line <+: cstr line := by
  unfold tmp_of
  have h1 := strip_len_le line (strlen line)
  have h2 : (if strip_len line (strlen line) ≥ BUF_SIZE + 1 then BUF_SIZE
      else strip_len line (strlen line)) ≤ strlen line := by
    split <;> simp [BUF_SIZE] at * <;> omega
  have h3 : line.take (strlen line) = cstr line :=
    (List.prefix_iff_eq_take.mp (cstr_initial line)).symm
  rw [← h3]
  simp only []
  rw [List.prefix_take_iff]
  exact ⟨List.take_prefix _ _, by rw [List.length_take]; omega⟩

theorem tmp_of_initial (line : List Byte) : tmp_of line <+: line :=
  (tmp_of_initial_cstr line).trans (cstr_initial line)

theorem tmp_of_no_nul (line : List Byte) : ∀ b ∈ tmp_of line, b ≠ 0 := fun b hb =>
  cstr_no_nul line b ((tmp_of_initial_cstr line).subset hb)

theorem tmp_of_length_le (line : List Byte) : (tmp_of line).length ≤ BUF_SIZE := by
  unfold tmp_of
  simp only [List.length_take]
  split <;> omega

/-! ## Lemmas on buffers and sending -/

theorem snprintf_fits (cap : Nat) (text : List Byte) (h : text.length < cap) :
    snprintf cap text = .ok (text ++ [0], text.length) := by
  unfold snprintf snprintf_at
  have h1 : ¬ (0 > cap) := by omega
  have h2 : ¬ (cap - 0 = 0) := by omega
  rw [if_neg h1, if_neg h2]
  have h3 : text.take (cap - 0 - 1) = text := List.take_of_length_le (by omega)
  rw [h3]
  simp

theorem safe_send_text (fd : Int) (text : List Byte) :
    safe_send fd (text ++ [0]) text.length = .ok ⟨fd, text⟩ := by
  unfold safe_send
  simp

theorem broadcast_loop_text (reg : Registry) (except_fd : Int) (text : List Byte) :
    ∀ is : List Nat, broadcast_loop reg except_fd (text ++ [0]) text.length is
      = .ok (broadcast_events reg except_fd text is)
  | [] => rfl
  | i :: is => by
    unfold broadcast_loop
    rw [broadcast_loop_text reg except_fd text is]
    simp only [safe_send_text]
    unfold broadcast_events
    cases h : reg i with
    | none => simp [h]
    | some c =>
      by_cases hfd : c.fd = except_fd
      · simp [h, hfd]
      · simp [h, hfd]

theorem broadcast_except_text (reg : Registry) (except_fd : Int) (text : List Byte) :
    broadcast_except reg except_fd (text ++ [0]) text.length
      = .ok (broadcast_events reg except_fd text (List.range MAX_FDS)) :=
  broadcast_loop_text reg except_fd text _

/-- In a well-formed registry the broadcast reaches exactly the occupied slots other
than the sender's, once each. -/
theorem broadcast_events_wf (reg : Registry) (hwf : wf reg) (ci : Nat) (text : List Byte)
    (is : List Nat) :
    broadcast_events reg (ci : Int) text is
      = (is.filter (fun i => decide (i ≠ ci) && (reg i).isSome)).map
          (fun (i : Nat) => (⟨(i : Int), text⟩ : Event)) := by
  induction is with
  | nil => rfl
  | cons i is ih =>
    unfold broadcast_events at ih ⊢
    rw [List.filterMap_cons, List.filter_cons]
    cases h : reg i with
    | none => simpa [h] using ih
    | some c =>
      have hfd := (hwf i c h).2.1
      by_cases hic : i = ci
      · subst hic
        simpa [h, hfd] using ih
      · have : ¬ (c.fd = (ci : Int)) := by rw [hfd]; exact_mod_cast hic
        simpa [h, this, hic, hfd] using ih

theorem find_by_name_isSome (reg : Registry) (name : List Byte) :
    (find_by_name reg name).isSome = true ↔
      ∃ i c, i < MAX_FDS ∧ reg i = some c ∧ c.name ≠ [] ∧ cstr c.name = cstr name := by
  unfold find_by_name
  rw [List.findSome?_isSome_iff]
  constructor
  · rintro ⟨i, hi, h⟩
    cases hr : reg i with
    | none => simp [hr] at h
    | some c =>
      rw [hr] at h
      simp only [strcmp_zero] at h
      split at h
      · next hc => exact ⟨i, c, List.mem_range.mp hi, hr, hc.1, by simpa using hc.2⟩
      · simp at h
  · rintro ⟨i, c, hi, hr, hne, heq⟩
    refine ⟨i, List.mem_range.mpr hi, ?_⟩
    simp [hr, strcmp_zero, hne, heq]

/-! ## Lemmas on `tmp` -/

theorem strip_len_spec (line : List Byte) : ∀ n,
    (∀ j, strip_len line n ≤ j → j < n → line.getD j 0 = 10 ∨ line.getD j 0 = 13) ∧
    (∀ k, strip_len line n = k + 1 → ¬ (line.getD k 0 = 10 ∨ line.getD k 0 = 13))
  | 0 => by
    constructor
    · intro j _ h
      omega
    · intro k h
      simp [strip_len] at h
  | n + 1 => by
    have ih := strip_len_spec line n
    unfold strip_len
    split
    · next hcond =>
      constructor
      · intro j h1 h2
        by_cases hj : j = n
        · subst hj
          exact hcond
        · exact ih.1 j h1 (by omega)
      · exact ih.2
    · next hcond =>
      constructor
      · intro j h1 h2
        omega
      · intro k hk
        have : k = n := by omega
        subst this
        exact hcond

/-- On a NUL-free line of at most `BUF_SIZE` bytes, `tmp` is the line without its
trailing run of `\n` and `\r` bytes. -/
theorem tmp_of_spec (line : List Byte) (hnul : ∀ b ∈ line, b ≠ 0)
    (hlen : line.length ≤ BUF_SIZE) :
    ∃ e, line = tmp_of line ++ e ∧ (∀ b ∈ e, b = 10 ∨ b = 13) ∧
      ∀ b, (tmp_of line).getLast? = some b → b ≠ 10 ∧ b ≠ 13 := by
  have hs : strlen line = line.length := by unfold strlen; rw [cstr_of_no_nul hnul]
  have hle := strip_len_le line line.length
  have htmp : tmp_of line = line.take (strip_len line line.length) := by
    unfold tmp_of
    rw [hs]
    have : ¬ (strip_len line line.length ≥ BUF_SIZE + 1) := by omega
    simp only [if_neg this]
  obtain ⟨h1, h2⟩ := strip_len_spec line line.length
  refine ⟨line.drop (strip_len line line.length), ?_, ?_, ?_⟩
  · rw [htmp, List.take_append_drop]
  · intro b hb
    obtain ⟨n, hn, hb⟩ := List.mem_iff_getElem.mp hb
    rw [List.getElem_drop] at hb
    rw [List.length_drop] at hn
    have := h1 (strip_len line line.length + n) (by omega) (by omega)
    rw [List.getD_eq_getElem _ _ (by omega), hb] at this
    exact this
  · intro b hb
    rw [htmp, List.getLast?_eq_getElem?, List.length_take, Nat.min_eq_left hle] at hb
    cases hL : strip_len line line.length with
    | zero => simp [hL] at hb
    | succ k =>
      rw [hL] at hb
      have hk : k < line.length := by omega
      have hb2 : line.get? k = some b := by
        rw [List.getElem?_take] at hb
        simpa [List.get?_eq_getElem?] using hb
      have h3 := h2 k hL
      have hg : line.getD k 0 = b := by
        rw [List.getD_eq_getElem?_getD, ← List.get?_eq_getElem?, hb2]
        rfl
      rw [hg] at h3
      exact not_or.mp h3

theorem deref_eq_iff_head (t : List Byte) (ch : Byte) (hch : ch ≠ 0) :
    deref t = ch ↔ t.head? = some ch := by
  cases t with
  | nil => simp [deref]; exact fun h => hch h.symm
  | cons b t => simp [deref]

theorem str_length_bracket : (str "[").length = 1 := rfl
theorem str_length_colon : (str "]: ").length = 3 := rfl
theorem str_length_nl : (str "\n").length = 1 := rfl

/-- Claim C4. A chat line from a registered connection.  For every framed line (NUL-free, at
most `BUF_SIZE` bytes) `tmp_of line` is the text `t`: the line without its trailing `\r`
and `\n` bytes.  If `t` does not start with `/`, `process_line` hands `"[N]: t\n"` in full to
every other occupied slot of the registry, once and in slot order, hands nothing to the
sender, and returns the registry as it was. -/
theorem chat_broadcast (reg : Registry) (hwf : wf reg) (ci : Nat) (c : Client)
    (line : List Byte) (hc : reg ci = some c) (hname : c.name ≠ [])
    (hnul : ∀ b ∈ line, b ≠ 0) (hlen : line.length ≤ BUF_SIZE)
    (hslash : (tmp_of line).head? ≠ some 47) :
    (∃ e, line = tmp_of line ++ e ∧ (∀ b ∈ e, b = 10 ∨ b = 13) ∧
      ∀ b, (tmp_of line).getLast? = some b → b ≠ 10 ∧ b ≠ 13) ∧
    process_line reg ci line = .ok (reg,
      ((List.range MAX_FDS).filter (fun i => decide (i ≠ ci) && (reg i).isSome)).map
        (fun (i : Nat) =>
          (⟨(i : Int), str "[" ++ c.name ++ str "]: " ++ tmp_of line ++ str "\n"⟩ : Event))) := by
  refine ⟨tmp_of_spec line hnul hlen, ?_⟩
  obtain ⟨_, hfd, hlen31, hnn⟩ := hwf ci c hc
  have hd : ¬ (deref (tmp_of line) = 47) := by
    rw [deref_eq_iff_head _ _ (by decide)]
    exact hslash
  have ht := tmp_of_length_le line
  unfold process_line
  rw [hc]
  dsimp only
  rw [if_neg hname, if_neg hd]
  rw [cstr_of_no_nul hnn, cstr_of_no_nul (tmp_of_no_nul line)]
  rw [snprintf_fits]
  · dsimp only
    rw [broadcast_except_text, hfd, broadcast_events_wf reg hwf]
  · simp only [List.length_append, str_length_bracket, str_length_colon, str_length_nl]
    simp only [BUF_SIZE, MAX_NAME] at *
    omega

theorem reg_sample_wf : wf reg_sample := by
  intro i c h
  unfold reg_sample at h
  split_ifs at h with h5 h6 h7
  · cases h; subst h5
    exact ⟨by decide, rfl, by decide, by decide⟩
  · cases h; subst h6
    exact ⟨by decide, rfl, by decide, by decide⟩
  · cases h; subst h7
    exact ⟨by decide, rfl, by decide, by decide⟩

/-- Witness of `chat_broadcast`: `alice` (slot 5) says `hello`. -/
theorem chat_broadcast_witness :
    process_line reg_sample 5 (str "hello\r\n") = .ok (reg_sample,
      ((List.range MAX_FDS).filter (fun i => decide (i ≠ 5) && (reg_sample i).isSome)).map
        (fun (i : Nat) => (⟨(i : Int), str "[alice]: hello\n"⟩ : Event))) :=
  (chat_broadcast reg_sample reg_sample_wf 5 ⟨5, str "alice", []⟩ (str "hello\r\n") rfl
    (by decide) (by decide) (by decide) (by decide)).2

/-! ## Replies with fixed text -/

theorem reply_literal (reg : Registry) (c : Client) (text : List Byte) (len : Nat)
    (h : len ≤ (literal text).length) :
    reply reg c (literal text) len = .ok (reg, [⟨c.fd, (literal text).take len⟩]) := by
  unfold reply send_to_client safe_send
  dsimp only
  rw [if_pos h]

theorem strlen_of_no_nul {s : List Byte} (h : ∀ b ∈ s, b ≠ 0) : strlen s = s.length := by
  unfold strlen
  rw [cstr_of_no_nul h]

/-- Claim C5. Duplicate nickname.  An unregistered connection sends a line whose text (the
line as `process_line` reads it, without its trailing `\r`/`\n`) is `NICK n`, and some
connection of the registry already has the stored nickname `n`.  Then the sender is handed
exactly `"SERVER: username taken, disconnecting\n"`, nobody else is handed anything, and
the registry is returned unchanged (the sender is still in it and still unregistered). -/
theorem duplicate_nick_rejected (reg : Registry) (ci : Nat) (c : Client) (j : Nat)
    (d : Client) (n line : List Byte)
    (hc : reg ci = some c) (hun : c.name = [])
    (hj : j < MAX_FDS) (hd : reg j = some d) (hdn : d.name = n) (hn : n ≠ [])
    (htext : tmp_of line = str "NICK " ++ n) :
    process_line reg ci line
      = .ok (reg, [⟨c.fd, str "SERVER: username taken, disconnecting\n"⟩]) ∧
    reg ci = some c ∧ c.name = [] := by
  refine ⟨?_, hc, hun⟩
  have hnn : ∀ b ∈ n, b ≠ 0 := fun b hb =>
    tmp_of_no_nul line b (by rw [htext]; exact List.mem_append_right _ hb)
  have hp : strncmp_zero (tmp_of line) (str "NICK ") 5 = true :=
    (strncmp_zero_iff_starts (tmp_of line) (str "NICK ") (by decide)).mpr ⟨n, htext.symm⟩
  have hdrop : (tmp_of line).drop 5 = n := by
    rw [htext]
    exact List.drop_left' rfl
  have hlen : ¬ (strlen n = 0) := by
    rw [strlen_of_no_nul hnn]
    exact fun h => hn (List.length_eq_zero.mp h)
  have hfind : (find_by_name reg n).isSome = true :=
    (find_by_name_isSome reg n).mpr ⟨j, d, hj, hd, by rw [hdn]; exact hn, by rw [hdn]⟩
  unfold process_line
  rw [hc]
  dsimp only
  rw [if_pos hun, if_pos hp, hdrop, if_neg hlen, if_pos hfind]
  exact reply_literal reg c lit_taken 38 (by decide)

/-- Witness of `duplicate_nick_rejected`: the unregistered connection in slot 7 asks for
`alice`, which slot 5 holds. -/
theorem duplicate_nick_rejected_witness :
    process_line reg_sample 7 (str "NICK alice\r\n")
      = .ok (reg_sample, [⟨7, str "SERVER: username taken, disconnecting\n"⟩]) ∧
    reg_sample 7 = some ⟨7, [], []⟩ ∧ (⟨7, [], []⟩ : Client).name = [] :=
  duplicate_nick_rejected reg_sample 7 ⟨7, [], []⟩ 5 ⟨5, str "alice", []⟩ (str "alice")
    (str "NICK alice\r\n") rfl rfl (by decide) rfl rfl (by decide) (by decide)

/-- Claim C6 (amended). A line from an unregistered connection that does not begin with
`NICK `.  If it does not begin with `/quit` either, handling it hands the sender exactly the
nickname prompt, hands nothing to anybody else and leaves the registry unchanged.  If it
begins with `/quit`, the sender is handed the same prompt and is then removed from the
registry, with nothing handed to anybody else. -/
theorem unregistered_line_prompted (reg : Registry) (ci : Nat) (c : Client)
    (line : List Byte) (hc : reg ci = some c) (hun : c.name = [])
    (hnick : ¬ str "NICK " <+: line) :
    (¬ str "/quit" <+: line → dispatch_line reg ci line
      = .ok (reg, [⟨c.fd, str "SERVER: please set nickname with: NICK <name>\n"⟩], false)) ∧
    (str "/quit" <+: line → dispatch_line reg ci line
      = .ok (remove_client reg (some c),
          [⟨c.fd, str "SERVER: please set nickname with: NICK <name>\n"⟩], true)) := by
  have hp : ¬ (strncmp_zero (tmp_of line) (str "NICK ") 5 = true) := fun h =>
    hnick (((strncmp_zero_iff_starts (tmp_of line) (str "NICK ") (by decide)).mp h).trans
      (tmp_of_initial line))
  have hpl : process_line reg ci line
      = .ok (reg, [⟨c.fd, str "SERVER: please set nickname with: NICK <name>\n"⟩]) := by
    unfold process_line
    rw [hc]
    dsimp only
    rw [if_pos hun, if_neg hp]
    have hs : strlen (literal lit_prompt) = 46 := by decide
    rw [hs]
    exact reply_literal reg c lit_prompt 46 (by decide)
  have hq : strncmp_zero line (str "/quit") 5 = true ↔ str "/quit" <+: line :=
    strncmp_zero_iff_starts line (str "/quit") (by decide)
  constructor
  · intro h
    unfold dispatch_line
    rw [hpl]
    dsimp only
    rw [if_neg (fun h1 => h (hq.mp h1))]
  · intro h
    unfold dispatch_line
    rw [hpl]
    dsimp only
    rw [if_pos (hq.mpr h), hc]

/-- Witness of `unregistered_line_prompted`: the spec's `hi there`. -/
theorem unregistered_line_prompted_witness :
    dispatch_line reg_sample 7 (str "hi there\n")
      = .ok (reg_sample, [⟨7, str "SERVER: please set nickname with: NICK <name>\n"⟩], false) :=
  (unregistered_line_prompted reg_sample 7 ⟨7, [], []⟩ (str "hi there\n") rfl rfl
    (by decide)).1 (by decide)

/-- Claim C6 as stated fails. The unregistered connection in slot 7 sends `/quit`: it is
handed the prompt, and afterwards it is no longer in the registry. -/
theorem unregistered_quit_removed :
    (match dispatch_line reg_sample 7 (str "/quit\n") with
      | .ok (reg, evs, removed) => some (reg 7, evs, removed)
      | .error _ => none)
      = some (none, [⟨7, str "SERVER: please set nickname with: NICK <name>\n"⟩], true) := by
  decide

/-- Claim C7 fails on the code. Four of the fixed replies are handed over with a length
shorter than the literal: the prompt on accept loses `>\n`, and the replies to an empty
nickname, to `/msg` without a recipient and to an unknown command lose their newline. -/
theorem fixed_replies_cut_short :
    events_of (accept_client (fun _ => none) 5 true)
      = some [⟨5, str "SERVER: please set nickname with: NICK <name"⟩] ∧
    events_of (process_line reg_sample 7 (str "NICK \n"))
      = some [⟨7, str "SERVER: invalid nickname"⟩] ∧
    events_of (process_line reg_sample 5 (str "/msg \n"))
      = some [⟨5, str "SERVER: usage: /msg <user> <text>"⟩] ∧
    events_of (process_line reg_sample 5 (str "/nope\n"))
      = some [⟨5, str "SERVER: unknown command"⟩] := by
  decide

/-! ## Whispers -/

theorem prefix_eq_of_length_eq {p q l : List Byte} (hp : p <+: l) (hq : q <+: l)
    (h : p.length = q.length) : p = q :=
  (List.prefix_of_prefix_length_le hp hq (Nat.le_of_eq h)).eq_of_length h

theorem find_by_name_some (reg : Registry) (name : List Byte) (c : Client)
    (h : find_by_name reg name = some c) :
    ∃ i, i < MAX_FDS ∧ reg i = some c ∧ c.name ≠ [] ∧ cstr c.name = cstr name := by
  unfold find_by_name at h
  obtain ⟨i, hi, hf⟩ := List.exists_of_findSome?_eq_some h
  cases hr : reg i with
  | none => simp [hr] at hf
  | some c1 =>
    rw [hr] at hf
    simp only [strcmp_zero] at hf
    split at hf
    · next hc =>
      cases hf
      exact ⟨i, List.mem_range.mp hi, hr, hc.1, by simpa using hc.2⟩
    · simp at hf

theorem scan_recipient_token (rest : List Byte) : ∀ (B : List Byte) (ri : Nat),
    ri + B.length ≤ MAX_NAME - 1 → (∀ b ∈ B, b ≠ 0) → (∀ b ∈ B, b ≠ 32) →
    scan_recipient (B ++ 32 :: rest) ri = (B, 32 :: rest)
  | [], ri, _, _, _ => by simp [scan_recipient]
  | b :: B, ri, hlen, h0, h32 => by
    have hb0 : b ≠ 0 := h0 b (List.mem_cons_self _ _)
    have hb32 : b ≠ 32 := h32 b (List.mem_cons_self _ _)
    have hri : ri < MAX_NAME - 1 := by simp only [List.length_cons] at hlen; omega
    have ih := scan_recipient_token rest B (ri + 1)
      (by simp only [List.length_cons] at hlen; omega)
      (fun x hx => h0 x (List.mem_cons_of_mem _ hx))
      (fun x hx => h32 x (List.mem_cons_of_mem _ hx))
    rw [List.cons_append]
    unfold scan_recipient
    rw [if_pos ⟨hb0, hb32, hri⟩, ih]

theorem send_to_client_text (c : Client) (text : List Byte) :
    send_to_client (some c) (text ++ [0]) text.length = .ok [⟨c.fd, text⟩] := by
  unfold send_to_client
  dsimp only
  rw [safe_send_text]

theorem str_length_from : (str "[Private from ").length = 14 := rfl
theorem str_length_to : (str "[Private to ").length = 12 := rfl

/-- Claim C2 (amended). Whisper round trip.  The sender in slot `ci` is registered as `A`;
slot `j` holds the only connection registered as `B`; `B` holds no space; the text of the
line is `/msg B t` with `t` non-empty and not starting with a space; and the
acknowledgment `"[Private to B]: t\n"` fits the 128-byte buffer `ack` with its terminator.
Then `process_line` hands exactly two messages over, in this order:
`"[Private from A]: t\n"` to slot `j` and `"[Private to B]: t\n"` to the sender; nobody else
is handed anything and the registry is unchanged. -/
theorem whisper_round_trip (reg : Registry) (hwf : wf reg) (ci : Nat) (c : Client) (j : Nat)
    (d : Client) (B t line : List Byte)
    (hc : reg ci = some c) (hname : c.name ≠ [])
    (hd : reg j = some d) (hdn : d.name = B) (hB : B ≠ [])
    (huniq : ∀ i d1, reg i = some d1 → d1.name = B → i = j)
    (hBsp : ∀ b ∈ B, b ≠ 32)
    (ht : t ≠ []) (hsp : t.head? ≠ some 32)
    (hfit : (str "[Private to " ++ B ++ str "]: " ++ t ++ str "\n").length < 128)
    (htext : tmp_of line = str "/msg " ++ B ++ [32] ++ t) :
    process_line reg ci line = .ok (reg,
      [⟨(j : Int), str "[Private from " ++ c.name ++ str "]: " ++ t ++ str "\n"⟩,
       ⟨(ci : Int), str "[Private to " ++ B ++ str "]: " ++ t ++ str "\n"⟩]) := by
  obtain ⟨_, hcfd, hclen, hcnn⟩ := hwf ci c hc
  obtain ⟨hjlt, hdfd, hdlen, hdnn⟩ := hwf j d hd
  rw [hdn] at hdlen hdnn
  have htmp0 := tmp_of_no_nul line
  rw [htext] at htmp0
  have htnn : ∀ b ∈ t, b ≠ 0 := fun b hb => htmp0 b (List.mem_append_right _ hb)
  have hpre : str "/msg " <+: tmp_of line := ⟨B ++ [32] ++ t, by rw [htext]; simp⟩
  have h47 : deref (tmp_of line) = 47 := by rw [htext]; rfl
  have hquit : ¬ (strncmp_zero (tmp_of line) (str "/quit") 5 = true) := fun h =>
    absurd (prefix_eq_of_length_eq
      ((strncmp_zero_iff_starts _ (str "/quit") (by decide)).mp h) hpre rfl) (by decide)
  have hlist : ¬ (strncmp_zero (tmp_of line) (str "/list") 5 = true) := fun h =>
    absurd (prefix_eq_of_length_eq
      ((strncmp_zero_iff_starts _ (str "/list") (by decide)).mp h) hpre rfl) (by decide)
  have hmsg : strncmp_zero (tmp_of line) (str "/msg ") 5 = true :=
    (strncmp_zero_iff_starts _ (str "/msg ") (by decide)).mpr hpre
  have hdrop : (tmp_of line).drop 5 = B ++ 32 :: t := by
    rw [htext, List.append_assoc, List.append_assoc]
    exact List.drop_left' rfl
  have hscan : scan_recipient (B ++ 32 :: t) 0 = (B, 32 :: t) :=
    scan_recipient_token t B 0 (by omega) hdnn hBsp
  have hBl : ¬ (B.length = 0) := fun h => hB (List.length_eq_zero.mp h)
  obtain ⟨t0, ts, rfl⟩ := List.exists_cons_of_ne_nil ht
  have ht32 : t0 ≠ 32 := fun h => hsp (by rw [h]; rfl)
  have ht00 : t0 ≠ 0 := htnn t0 (List.mem_cons_self _ _)
  have hskip : skip_spaces (32 :: t0 :: ts) = t0 :: ts := by
    simp [skip_spaces, List.dropWhile, ht32]
  have hderef : ¬ (deref (t0 :: ts) = 0) := ht00
  have hfind : find_by_name reg B = some d := by
    have hsome : (find_by_name reg B).isSome = true :=
      (find_by_name_isSome reg B).mpr ⟨j, d, hjlt, hd, by rw [hdn]; exact hB, by rw [hdn]⟩
    obtain ⟨d1, hd1⟩ := Option.isSome_iff_exists.mp hsome
    obtain ⟨i, _, hri, _, hcs⟩ := find_by_name_some reg B d1 hd1
    have hd1nn := (hwf i d1 hri).2.2.2
    rw [cstr_of_no_nul hd1nn, cstr_of_no_nul hdnn] at hcs
    have hij := huniq i d1 hri hcs
    subst hij
    rw [hd] at hri
    cases hri
    exact hd1
  simp only [List.length_append, str_length_to, str_length_colon, str_length_nl] at hfit
  unfold process_line
  rw [hc]
  dsimp only
  rw [if_neg hname, if_pos h47, if_neg hquit, if_neg hlist, if_pos hmsg, hdrop, hscan]
  dsimp only
  rw [if_neg hBl, hskip, if_neg hderef, hfind]
  dsimp only
  rw [cstr_of_no_nul hcnn, cstr_of_no_nul htnn, cstr_of_no_nul hdnn]
  rw [snprintf_fits BUF_SIZE, snprintf_fits 128]
  · dsimp only
    rw [send_to_client_text, send_to_client_text, hdfd, hcfd]
    rfl
  · simp only [List.length_append, str_length_to, str_length_colon, str_length_nl]
    omega
  · simp only [List.length_append, str_length_from, str_length_colon, str_length_nl]
    simp only [BUF_SIZE, MAX_NAME] at *
    omega

/-- Witness of `whisper_round_trip`: the spec's `/msg bob hello` from `alice`. -/
theorem whisper_round_trip_witness :
    process_line reg_sample 5 (str "/msg bob hello\n") = .ok (reg_sample,
      [⟨6, str "[Private from alice]: hello\n"⟩, ⟨5, str "[Private to bob]: hello\n"⟩]) :=
  whisper_round_trip reg_sample reg_sample_wf 5 ⟨5, str "alice", []⟩ 6 ⟨6, str "bob", []⟩
    (str "bob") (str "hello") (str "/msg bob hello\n") rfl (by decide) rfl rfl (by decide)
    (by
      intro i d1 h hn
      unfold reg_sample at h
      split_ifs at h with h5 h6 h7
      · cases h; exact absurd hn (by decide)
      · exact h6
      · cases h; exact absurd hn (by decide))
    (by decide) (by decide) (by decide) (by decide) (by decide)

/-- Claim C2 as stated fails. A nickname may hold a space (`NICK bob smith` stores
`bob smith`), and then `/msg bob smith hello` looks for the user `bob`: the sender is told
`user not found` and `bob smith` is handed nothing.  Apart from that, a text whose
acknowledgment does not fit the 128-byte `ack` makes `process_line` read past that
array. -/
theorem whisper_round_trip_fails :
    events_of (process_line reg_spaced 5 (str "/msg bob smith hello\n"))
      = some [⟨5, str "SERVER: user not found\n"⟩] ∧
    fault_of (process_line reg_sample 5 (str "/msg bob " ++ List.replicate 120 120 ++ [10]))
      = some Fault.undefined := by
  decide!

/-! ## The roster -/

theorem snprintf_at_append (text0 : List Byte) (cap : Nat) (text : List Byte)
    (h : text0.length + text.length < cap) :
    snprintf_at (text0 ++ [0]) cap text0.length text
      = .ok (text0 ++ text ++ [0], (text0 ++ text).length) := by
  unfold snprintf_at
  have h1 : ¬ (text0.length > cap) := by omega
  have h2 : ¬ (cap - text0.length = 0) := by omega
  rw [if_neg h1, if_neg h2]
  have h3 : text.take (cap - text0.length - 1) = text := List.take_of_length_le (by omega)
  rw [h3, List.take_left, List.length_append]

theorem snprintf_at_ok (buf : List Byte) (cap pos : Nat) (text buf1 : List Byte) (pos1 : Nat)
    (hb : buf.length ≤ cap) (h : snprintf_at buf cap pos text = .ok (buf1, pos1)) :
    pos1 = pos + text.length ∧ buf1.length ≤ cap := by
  unfold snprintf_at at h
  split at h
  · cases h
  · split at h
    · cases h
      exact ⟨rfl, hb⟩
    · cases h
      refine ⟨rfl, ?_⟩
      simp only [List.length_append, List.length_take, List.length_singleton]
      omega

theorem snprintf_at_error (buf : List Byte) (cap pos : Nat) (text : List Byte) (e : Fault)
    (h : snprintf_at buf cap pos text = .error e) : e = .undefined := by
  unfold snprintf_at at h
  split at h
  · cases h; rfl
  · split at h <;> cases h

theorem list_loop_fits (reg : Registry) : ∀ (is : List Nat) (text0 : List Byte),
    text0.length + (roster_text reg is).length < 4096 →
    list_loop reg is (text0 ++ [0], text0.length)
      = .ok (text0 ++ roster_text reg is ++ [0], (text0 ++ roster_text reg is).length)
  | [], text0, _ => by simp [list_loop, roster_text]
  | i :: is, text0, h => by
    unfold list_loop roster_text
    unfold roster_text at h
    cases hr : reg i with
    | none =>
      rw [hr] at h
      dsimp only at h ⊢
      exact list_loop_fits reg is text0 h
    | some cc =>
      rw [hr] at h
      dsimp only at h ⊢
      by_cases hn : cc.name ≠ []
      · rw [if_pos hn] at h
        rw [if_pos hn, if_pos hn]
        simp only [List.length_append] at h
        rw [snprintf_at_append _ _ _ (by simp only [List.length_append]; omega)]
        dsimp only
        rw [list_loop_fits reg is _ (by simp only [List.length_append]; omega)]
        simp only [List.append_assoc]
      · rw [if_neg hn] at h
        rw [if_neg hn, if_neg hn]
        exact list_loop_fits reg is text0 h

theorem list_loop_ok (reg : Registry) : ∀ (is : List Nat) (buf : List Byte) (pos : Nat)
    (buf1 : List Byte) (pos1 : Nat), buf.length ≤ 4096 →
    list_loop reg is (buf, pos) = .ok (buf1, pos1) →
    pos1 = pos + (roster_text reg is).length ∧ buf1.length ≤ 4096
  | [], buf, pos, buf1, pos1, hb, h => by
    simp only [list_loop, Except.ok.injEq, Prod.mk.injEq] at h
    obtain ⟨rfl, rfl⟩ := h
    exact ⟨by simp [roster_text], hb⟩
  | i :: is, buf, pos, buf1, pos1, hb, h => by
    unfold list_loop at h
    unfold roster_text
    cases hr : reg i with
    | none =>
      rw [hr] at h
      dsimp only at h ⊢
      exact list_loop_ok reg is buf pos buf1 pos1 hb h
    | some cc =>
      rw [hr] at h
      dsimp only at h ⊢
      by_cases hn : cc.name ≠ []
      · rw [if_pos hn] at h ⊢
        cases hs : snprintf_at buf 4096 pos (str " - " ++ cstr cc.name ++ str "\n") with
        | error e => rw [hs] at h; cases h
        | ok s1 =>
          rw [hs] at h
          dsimp only at h
          obtain ⟨b2, p2⟩ := s1
          obtain ⟨hp2, hb2⟩ := snprintf_at_ok _ _ _ _ _ _ hb hs
          obtain ⟨hp, hbb⟩ := list_loop_ok reg is b2 p2 buf1 pos1 hb2 h
          refine ⟨?_, hbb⟩
          rw [hp, hp2]
          simp only [List.length_append]
          omega
      · rw [if_neg hn] at h ⊢
        exact list_loop_ok reg is buf pos buf1 pos1 hb h

theorem list_loop_error (reg : Registry) : ∀ (is : List Nat) (s : List Byte × Nat) (e : Fault),
    list_loop reg is s = .error e → e = .undefined
  | [], s, e, h => by simp [list_loop] at h
  | i :: is, s, e, h => by
    unfold list_loop at h
    cases hr : reg i with
    | none =>
      rw [hr] at h
      exact list_loop_error reg is s e h
    | some cc =>
      rw [hr] at h
      dsimp only at h
      by_cases hn : cc.name ≠ []
      · rw [if_pos hn] at h
        cases hs : snprintf_at s.1 4096 s.2 (str " - " ++ cstr cc.name ++ str "\n") with
        | error e1 =>
          rw [hs] at h
          cases h
          exact snprintf_at_error _ _ _ _ _ hs
        | ok s1 =>
          rw [hs] at h
          exact list_loop_error reg is s1 e h
      · rw [if_neg hn] at h
        exact list_loop_error reg is s e h

theorem str_length_header : (str "SERVER: active users:\n").length = 22 := rfl

/-- The first steps of `process_line` on a `/list` line from a registered connection. -/
theorem process_line_list (reg : Registry) (ci : Nat) (c : Client) (line : List Byte)
    (hc : reg ci = some c) (hname : c.name ≠ []) (hlist : str "/list" <+: tmp_of line) :
    process_line reg ci line =
      match list_loop reg (List.range MAX_FDS)
          (str "SERVER: active users:\n" ++ [0], 22) with
      | .error e => .error e
      | .ok (listbuf, pos) => reply reg c listbuf pos := by
  have h47 : deref (tmp_of line) = 47 := by
    obtain ⟨r, hr⟩ := hlist
    rw [← hr]
    rfl
  have hquit : ¬ (strncmp_zero (tmp_of line) (str "/quit") 5 = true) := fun h =>
    absurd (prefix_eq_of_length_eq
      ((strncmp_zero_iff_starts _ (str "/quit") (by decide)).mp h) hlist rfl) (by decide)
  have hl : strncmp_zero (tmp_of line) (str "/list") 5 = true :=
    (strncmp_zero_iff_starts _ (str "/list") (by decide)).mpr hlist
  have hh : snprintf_at [] 4096 0 (str "SERVER: active users:\n")
      = .ok (str "SERVER: active users:\n" ++ [0], 22) := by
    have := snprintf_at_append [] 4096 (str "SERVER: active users:\n") (by decide)
    simpa using this
  unfold process_line
  rw [hc]
  dsimp only
  rw [if_neg hname, if_pos h47, if_neg hquit, if_pos hl, hh]

/-- A roster that fits `listbuf` is sent whole: the header and one entry per registered
connection, in slot order. -/
theorem roster_complete (reg : Registry) (ci : Nat) (c : Client) (line : List Byte)
    (hc : reg ci = some c) (hname : c.name ≠ []) (hlist : str "/list" <+: tmp_of line)
    (hfit : 22 + (roster_text reg (List.range MAX_FDS)).length < 4096) :
    process_line reg ci line = .ok (reg,
      [⟨c.fd, str "SERVER: active users:\n" ++ roster_text reg (List.range MAX_FDS)⟩]) := by
  rw [process_line_list reg ci c line hc hname hlist]
  have := list_loop_fits reg (List.range MAX_FDS) (str "SERVER: active users:\n")
    (by rw [str_length_header]; exact hfit)
  rw [str_length_header] at this
  rw [this]
  dsimp only
  unfold reply
  rw [send_to_client_text]

/-- A roster of more than 4096 bytes does not fit `listbuf`: `pos` runs past the end of
the array, and either the next `snprintf` writes there or the reply is sent with that
length. -/
theorem roster_too_long (reg : Registry) (ci : Nat) (c : Client) (line : List Byte)
    (hc : reg ci = some c) (hname : c.name ≠ []) (hlist : str "/list" <+: tmp_of line)
    (hlong : 4096 < 22 + (roster_text reg (List.range MAX_FDS)).length) :
    process_line reg ci line = .error .undefined := by
  rw [process_line_list reg ci c line hc hname hlist]
  cases hl : list_loop reg (List.range MAX_FDS) (str "SERVER: active users:\n" ++ [0], 22) with
  | error e =>
    dsimp only
    rw [list_loop_error _ _ _ _ hl]
  | ok s =>
    obtain ⟨listbuf, pos⟩ := s
    dsimp only
    obtain ⟨hp, hb⟩ := list_loop_ok reg _ _ _ _ _ (by decide) hl
    unfold reply send_to_client safe_send
    dsimp only
    rw [if_neg (by omega)]

/-- The spec's roster scenario: `alice` asks for the list while `bob` is registered and a
third connection is not. -/
theorem roster_sample :
    process_line reg_sample 5 (str "/list\n") = .ok (reg_sample,
      [⟨5, str "SERVER: active users:\n - alice\n - bob\n"⟩]) := by
  have hr : roster_text reg_sample (List.range MAX_FDS) = str " - alice\n - bob\n" := by
    decide!
  have h := roster_complete reg_sample 5 ⟨5, str "alice", []⟩ (str "/list\n") rfl
    (by decide) (by decide) (by rw [hr]; decide)
  rw [hr] at h
  exact h

/-- Claim C8 fails on the code. With 117 registered connections whose nicknames have 31
bytes the roster needs 22 + 117 * 35 = 4117 bytes; `listbuf` has 4096.  The last entry is
cut, `pos` runs past the end of the array, and the reply is sent with that length. -/
theorem roster_overflows :
    process_line reg_crowd 5 (str "/list\n") = .error .undefined :=
  roster_too_long reg_crowd 5 ⟨5, str "aaaaaaaaaaaaaaaaaaaaaaaaaaaa005", []⟩ (str "/list\n")
    rfl (by decide) (by decide) (by decide!)

/-! ## What `process_line` does to the registry -/

theorem safe_send_error (fd : Int) (msg : List Byte) (len : Nat) (e : Fault)
    (h : safe_send fd msg len = .error e) : e = .undefined := by
  unfold safe_send at h
  split at h <;> cases h
  rfl

theorem send_to_client_error (c : Option Client) (msg : List Byte) (len : Nat) (e : Fault)
    (h : send_to_client c msg len = .error e) : e = .undefined := by
  unfold send_to_client at h
  split at h
  · cases h
  · split at h
    · next e1 he =>
      cases h
      exact safe_send_error _ _ _ _ he
    · cases h

theorem broadcast_loop_error (reg : Registry) (x : Int) (msg : List Byte) (len : Nat) :
    ∀ (is : List Nat) (e : Fault), broadcast_loop reg x msg len is = .error e → e = .undefined
  | [], e, h => by simp [broadcast_loop] at h
  | i :: is, e, h => by
    unfold broadcast_loop at h
    split at h
    · exact broadcast_loop_error reg x msg len is e h
    · split at h
      · exact broadcast_loop_error reg x msg len is e h
      · split at h
        · next e1 he =>
          cases h
          exact safe_send_error _ _ _ _ he
        · split at h
          · next e1 he =>
            cases h
            exact broadcast_loop_error reg x msg len is _ he
          · cases h

theorem broadcast_except_error (reg : Registry) (x : Int) (msg : List Byte) (len : Nat)
    (e : Fault) (h : broadcast_except reg x msg len = .error e) : e = .undefined :=
  broadcast_loop_error reg x msg len _ e h

theorem snprintf_error (cap : Nat) (text : List Byte) (e : Fault)
    (h : snprintf cap text = .error e) : e = .undefined :=
  snprintf_at_error _ _ _ _ _ h

theorem reply_error (reg : Registry) (c : Client) (msg : List Byte) (len : Nat) (e : Fault)
    (h : reply reg c msg len = .error e) : e = .undefined := by
  unfold reply at h
  split at h
  · next e1 he =>
    cases h
    exact send_to_client_error _ _ _ _ he
  · cases h

theorem reply_ok (reg : Registry) (c : Client) (msg : List Byte) (len : Nat) (r : Registry)
    (evs : List Event) (h : reply reg c msg len = .ok (r, evs)) : r = reg := by
  unfold reply at h
  split at h
  · cases h
  · cases h
    rfl

/-- The function `process_line` never runs out of fuel: it has no loop that takes any. -/
theorem process_line_error (reg : Registry) (ci : Nat) (line : List Byte) (e : Fault)
    (h : process_line reg ci line = .error e) : e = .undefined := by
  unfold process_line at h
  cases hc : reg ci with
  | none =>
    rw [hc] at h
    cases h
    rfl
  | some c =>
  rw [hc] at h
  dsimp only at h
  split_ifs at h
  all_goals repeat' split at h
  all_goals first
    | exact reply_error _ _ _ _ _ h
    | (cases h; with_reducible exact snprintf_error _ _ _ (by assumption))
    | (cases h; with_reducible exact snprintf_at_error _ _ _ _ _ (by assumption))
    | (cases h; with_reducible exact send_to_client_error _ _ _ _ (by assumption))
    | (cases h; with_reducible exact broadcast_except_error _ _ _ _ _ (by assumption))
    | (cases h; with_reducible exact list_loop_error _ _ _ _ (by assumption))
    | cases h

theorem name_ok_take (x : List Byte) : name_ok ((cstr x).take (MAX_NAME - 1)) :=
  ⟨List.length_take_le _ _, fun b hb => cstr_no_nul x b (List.mem_of_mem_take hb)⟩

/-- The function `process_line` leaves the registry as it is, or stores a nickname that
fits the field in the record of the connection that sent the line. -/
theorem process_line_ok (reg : Registry) (ci : Nat) (line : List Byte) (r : Registry)
    (evs : List Event) (h : process_line reg ci line = .ok (r, evs)) :
    ∃ c, reg ci = some c ∧
      (r = reg ∨ ∃ n, name_ok n ∧ r = Function.update reg ci (some { c with name := n })) := by
  unfold process_line at h
  cases hc : reg ci with
  | none =>
    rw [hc] at h
    cases h
  | some c =>
    rw [hc] at h
    dsimp only at h
    refine ⟨c, rfl, ?_⟩
    split_ifs at h
    all_goals repeat' split at h
    all_goals first
      | exact Or.inl (reply_ok _ _ _ _ _ _ h)
      | (cases h; exact Or.inl rfl)
      | (cases h; exact Or.inr ⟨_, name_ok_take _, rfl⟩)
      | cases h

/-! ## The framer -/

theorem strchr_none_of_not_mem (ch : Byte) : ∀ s : List Byte, (∀ b ∈ s, b ≠ ch) →
    strchr s ch = none
  | [], _ => rfl
  | b :: s, h => by
    unfold strchr
    rw [if_neg (h b (List.mem_cons_self _ _))]
    split
    · rfl
    · rw [strchr_none_of_not_mem ch s (fun x hx => h x (List.mem_cons_of_mem _ hx))]
      rfl

theorem strchr_append (ch : Byte) (r : List Byte) : ∀ s : List Byte,
    (∀ b ∈ s, b ≠ ch ∧ b ≠ 0) → strchr (s ++ ch :: r) ch = some s.length
  | [], _ => by simp [strchr]
  | b :: s, h => by
    rw [List.cons_append]
    unfold strchr
    rw [if_neg (h b (List.mem_cons_self _ _)).1, if_neg (h b (List.mem_cons_self _ _)).2,
      strchr_append ch r s (fun x hx => h x (List.mem_cons_of_mem _ hx))]
    rfl

theorem strchr_lt (ch : Byte) : ∀ (s : List Byte) (k : Nat), strchr s ch = some k →
    k < s.length
  | [], k, h => by simp [strchr] at h
  | b :: s, k, h => by
    unfold strchr at h
    split at h
    · cases h
      simp
    · split at h
      · cases h
      · cases hs : strchr s ch with
        | none => rw [hs] at h; cases h
        | some k1 =>
          rw [hs] at h
          cases h
          have := strchr_lt ch s k1 hs
          simp only [List.length_cons]
          omega

theorem keeps_records_of_eq_or_none {reg r : Registry} (h : ∀ i, r i = none ∨ r i = reg i) :
    keeps_records reg r := by
  intro i
  rcases h i with h1 | h1
  · exact Or.inl h1
  · cases hr : r i with
    | none => exact Or.inl rfl
    | some c => exact Or.inr ⟨c, c, by rw [← h1, hr], rfl, rfl, rfl, id⟩

theorem keeps_records_refl (reg : Registry) : keeps_records reg reg :=
  keeps_records_of_eq_or_none (fun _ => Or.inr rfl)

theorem keeps_records_trans {a b c : Registry} (h1 : keeps_records a b)
    (h2 : keeps_records b c) : keeps_records a c := by
  intro i
  rcases h2 i with h | ⟨x, y, hx, hy, hfd, hbuf, hn⟩
  · exact Or.inl h
  · rcases h1 i with h3 | ⟨u, v, hu, hv, hfd1, hbuf1, hn1⟩
    · rw [h3] at hx
      cases hx
    · rw [hv] at hx
      cases hx
      exact Or.inr ⟨u, y, hu, hy, hfd.trans hfd1, hbuf.trans hbuf1, fun h => hn (hn1 h)⟩

theorem buf_bounded_of_keeps {reg r : Registry} (hb : buf_bounded reg)
    (hk : keeps_records reg r) : buf_bounded r := by
  intro i c hc
  rcases hk i with h | ⟨x, y, hx, hy, _, hbuf, _⟩
  · rw [hc] at h; cases h
  · rw [hc] at hy
    cases hy
    rw [hbuf]
    exact hb i x hx

theorem wf_of_keeps {reg r : Registry} (hwf : wf reg) (hk : keeps_records reg r) : wf r := by
  intro i c hc
  rcases hk i with h | ⟨x, y, hx, hy, hfd, _, hn⟩
  · rw [hc] at h; cases h
  · rw [hc] at hy
    cases hy
    obtain ⟨h1, h2, h3⟩ := hwf i x hx
    exact ⟨h1, hfd.trans h2, hn h3⟩

theorem remove_client_keeps (reg : Registry) (x : Option Client) :
    keeps_records reg (remove_client reg x) := by
  apply keeps_records_of_eq_or_none
  intro i
  unfold remove_client
  split
  · exact Or.inr rfl
  · split
    · by_cases hi : i = Int.toNat (Client.fd ‹Client›)
      · left
        rw [hi]
        exact Function.update_same _ _ _
      · right
        rw [Function.update_noteq hi]
    · exact Or.inr rfl

theorem process_line_keeps (reg : Registry) (ci : Nat) (line : List Byte) (r : Registry)
    (evs : List Event) (h : process_line reg ci line = .ok (r, evs)) :
    keeps_records reg r := by
  obtain ⟨c, hc, hr | ⟨n, hn, hr⟩⟩ := process_line_ok reg ci line r evs h
  · rw [hr]
    exact keeps_records_refl reg
  · intro i
    rw [hr]
    by_cases hi : i = ci
    · right
      rw [hi, Function.update_same]
      exact ⟨c, _, hc, rfl, rfl, rfl, fun _ => hn⟩
    · rw [Function.update_noteq hi]
      exact keeps_records_refl reg i

theorem dispatch_line_error (reg : Registry) (ci : Nat) (line : List Byte) (e : Fault)
    (h : dispatch_line reg ci line = .error e) : e = .undefined := by
  unfold dispatch_line at h
  cases hp : process_line reg ci line with
  | error e1 =>
    rw [hp] at h
    cases h
    exact process_line_error reg ci line _ hp
  | ok s =>
    rw [hp] at h
    dsimp only at h
    split at h <;> cases h

theorem dispatch_line_keeps (reg : Registry) (ci : Nat) (line : List Byte) (r : Registry)
    (evs : List Event) (q : Bool) (h : dispatch_line reg ci line = .ok (r, evs, q)) :
    keeps_records reg r := by
  unfold dispatch_line at h
  cases hp : process_line reg ci line with
  | error e1 => rw [hp] at h; cases h
  | ok s =>
    obtain ⟨r1, ev1⟩ := s
    rw [hp] at h
    dsimp only at h
    have hk := process_line_keeps reg ci line r1 ev1 hp
    split at h
    · cases h
      exact keeps_records_trans hk (remove_client_keeps r1 _)
    · cases h
      exact hk

/-- What the line extraction loop guarantees when it returns. -/
theorem line_loop_ok (ci : Nat) (buf : List Byte) : ∀ (fuel : Nat) (reg : Registry)
    (start : Nat) (out : LoopOut), line_loop fuel reg ci buf start = .ok out →
    start ≤ buf.length →
    keeps_records reg out.reg ∧
    (∀ s, out.start = some s → start ≤ s ∧ s ≤ buf.length) ∧
    (∀ l ∈ out.calls, 1 ≤ l.length ∧ l.length ≤ BUF_SIZE)
  | 0, reg, start, out, h, _ => by simp [line_loop] at h
  | fuel + 1, reg, start, out, h, hs => by
    unfold line_loop at h
    cases hk : strchr (buf.drop start) 10 with
    | none =>
      rw [hk] at h
      cases h
      refine ⟨keeps_records_refl reg, ?_, ?_⟩
      · intro s hs1
        cases hs1
        exact ⟨Nat.le_refl _, hs⟩
      · intro l hl
        cases hl
    | some k =>
      rw [hk] at h
      dsimp only at h
      have hklt := strchr_lt 10 _ k hk
      rw [List.length_drop] at hklt
      have hline : ∀ l, l = (buf.drop start).take (if k + 1 > BUF_SIZE then BUF_SIZE else k + 1) →
          1 ≤ l.length ∧ l.length ≤ BUF_SIZE := by
        intro l hl
        rw [hl, List.length_take, List.length_drop]
        split <;> simp only [BUF_SIZE] at * <;> omega
      cases hd : dispatch_line reg ci
          ((buf.drop start).take (if k + 1 > BUF_SIZE then BUF_SIZE else k + 1)) with
      | error e => rw [hd] at h; cases h
      | ok s =>
        obtain ⟨r1, ev1, q⟩ := s
        rw [hd] at h
        have hk1 := dispatch_line_keeps _ _ _ _ _ _ hd
        cases q with
        | true =>
          dsimp only at h
          cases h
          refine ⟨hk1, ?_, ?_⟩
          · intro s hs1
            cases hs1
          intro l hl
          rw [List.mem_singleton] at hl
          exact hline l hl
        | false =>
          dsimp only at h
          cases hl : line_loop fuel r1 ci buf (start + k + 1) with
          | error e => rw [hl] at h; cases h
          | ok out1 =>
            rw [hl] at h
            cases h
            obtain ⟨ha, hb, hc⟩ := line_loop_ok ci buf fuel r1 (start + k + 1) out1 hl (by omega)
            refine ⟨keeps_records_trans hk1 ha, ?_, ?_⟩
            · intro s hs1
              have := hb s hs1
              omega
            · intro l hl1
              rcases List.mem_cons.mp hl1 with h1 | h1
              · exact hline l h1
              · exact hc l h1

/-- The line extraction loop never uses up its fuel. -/
theorem line_loop_error (ci : Nat) (buf : List Byte) : ∀ (fuel : Nat) (reg : Registry)
    (start : Nat) (e : Fault), line_loop fuel reg ci buf start = .error e →
    start ≤ buf.length → buf.length < start + fuel → e = .undefined
  | 0, reg, start, e, _, h1, h2 => by omega
  | fuel + 1, reg, start, e, h, h1, h2 => by
    unfold line_loop at h
    cases hk : strchr (buf.drop start) 10 with
    | none => rw [hk] at h; cases h
    | some k =>
      rw [hk] at h
      dsimp only at h
      have hklt := strchr_lt 10 _ k hk
      rw [List.length_drop] at hklt
      cases hd : dispatch_line reg ci
          ((buf.drop start).take (if k + 1 > BUF_SIZE then BUF_SIZE else k + 1)) with
      | error e1 =>
        rw [hd] at h
        cases h
        exact dispatch_line_error _ _ _ _ hd
      | ok s =>
        obtain ⟨r1, ev1, q⟩ := s
        rw [hd] at h
        cases q with
        | true => cases h
        | false =>
          dsimp only at h
          cases hl : line_loop fuel r1 ci buf (start + k + 1) with
          | error e1 =>
            rw [hl] at h
            cases h
            exact line_loop_error ci buf fuel r1 (start + k + 1) _ hl (by omega) (by omega)
          | ok out1 => rw [hl] at h; cases h

/-! ## One round of the read loop -/

theorem read_size_eq (c : Client) (h : c.buf.length ≤ BUF_SIZE - 1) :
    read_size c = BUF_SIZE - 1 - c.buf.length := by
  unfold read_size
  simp only [BUF_SIZE] at *
  have h0 : (0 : Int) ≤ ((4096 : Nat) : Int) - (c.buf.length : Int) - 1 := by omega
  have h1 : ((4096 : Nat) : Int) - (c.buf.length : Int) - 1 < 2 ^ 64 := by
    have : (2 : Int) ^ 64 = 18446744073709551616 := by norm_num
    omega
  rw [Int.emod_eq_of_lt h0 h1]
  omega

theorem buf_bounded_update {reg : Registry} (hb : buf_bounded reg) (ci : Nat) (c : Client)
    (hc : c.buf.length ≤ BUF_SIZE - 1) : buf_bounded (Function.update reg ci (some c)) := by
  intro i x hx
  by_cases hi : i = ci
  · rw [hi, Function.update_same] at hx
    cases hx
    exact hc
  · rw [Function.update_noteq hi] at hx
    exact hb i x hx

theorem read_iter_error (reg : Registry) (ci : Nat) (r : ReadResult) (e : Fault)
    (h : read_iter reg ci r = .error e) : e = .undefined := by
  unfold read_iter at h
  cases hc : reg ci with
  | none => rw [hc] at h; cases h; rfl
  | some c =>
    rw [hc] at h
    dsimp only at h
    cases r with
    | error again => cases again <;> cases h
    | count data =>
      dsimp only at h
      by_cases h0 : data.length = 0
      · rw [if_pos h0] at h
        by_cases hn : c.name ≠ []
        · rw [if_pos hn] at h
          split at h
          · next e1 he =>
            cases h
            exact snprintf_error _ _ _ he
          · split at h
            · next e1 he =>
              cases h
              exact broadcast_except_error _ _ _ _ _ he
            · cases h
        · rw [if_neg hn] at h
          cases h
      · rw [if_neg h0] at h
        cases hl : line_loop ((c.buf ++ data).length + 1)
            (Function.update reg ci (some { c with buf := c.buf ++ data })) ci (c.buf ++ data) 0 with
        | error e1 =>
          rw [hl] at h
          cases h
          exact line_loop_error ci _ _ _ 0 _ hl (Nat.zero_le _) (by omega)
        | ok lo =>
          rw [hl] at h
          dsimp only at h
          split at h
          · cases h
          · split at h
            · cases h; rfl
            · cases h

/-- What a round of the read loop that received data guarantees when it returns. -/
theorem read_iter_data_ok (reg : Registry) (ci : Nat) (c : Client) (data : List Byte)
    (out : IterOut) (hc : reg ci = some c) (hb : buf_bounded reg) (h1 : 1 ≤ data.length)
    (h2 : c.buf.length + data.length ≤ BUF_SIZE - 1)
    (h : read_iter reg ci (.count data) = .ok out) :
    (∀ l ∈ out.calls, 1 ≤ l.length ∧ l.length ≤ BUF_SIZE) ∧
    (∀ lo, out.leftover = some lo → 0 ≤ lo ∧ lo ≤ ((BUF_SIZE - 1 : Nat) : Int)) ∧
    (∀ lo c2, out.leftover = some lo → out.reg ci = some c2 → (c2.buf.length : Int) = lo) ∧
    buf_bounded out.reg := by
  unfold read_iter at h
  rw [hc] at h
  dsimp only at h
  rw [if_neg (by omega)] at h
  have hlen : (c.buf ++ data).length ≤ BUF_SIZE - 1 := by rw [List.length_append]; exact h2
  have hb1 : buf_bounded (Function.update reg ci (some { c with buf := c.buf ++ data })) :=
    buf_bounded_update hb ci _ hlen
  cases hl : line_loop ((c.buf ++ data).length + 1)
      (Function.update reg ci (some { c with buf := c.buf ++ data })) ci (c.buf ++ data) 0 with
  | error e1 => rw [hl] at h; cases h
  | ok lo =>
    rw [hl] at h
    dsimp only at h
    obtain ⟨hk, hs, hcalls⟩ := line_loop_ok ci _ _ _ 0 lo hl (Nat.zero_le _)
    have hb2 := buf_bounded_of_keeps hb1 hk
    cases hst : lo.start with
    | none =>
      rw [hst] at h
      dsimp only at h
      cases h
      refine ⟨hcalls, ?_, ?_, hb2⟩
      · intro _ hx
        cases hx
      · intro _ _ hx
        cases hx
    | some start =>
      rw [hst] at h
      dsimp only at h
      obtain ⟨_, hsle⟩ := hs start hst
      cases hc2 : lo.reg ci with
      | none => rw [hc2] at h; cases h
      | some c2 =>
        rw [hc2] at h
        dsimp only at h
        cases h
        dsimp only
        refine ⟨hcalls, ?_, ?_, ?_⟩
        · intro x hx
          cases hx
          omega
        · intro x c3 hx hc3
          cases hx
          rw [Function.update_same] at hc3
          cases hc3
          dsimp only
          rw [List.length_take]
          split_ifs
          · rw [List.length_drop]; omega
          · omega
        · apply buf_bounded_update hb2
          dsimp only
          rw [List.length_take]
          have : ((c.buf ++ data).length : Int) - (start : Int) ≤ ((BUF_SIZE - 1 : Nat) : Int) := by
            omega
          omega

theorem accept_client_bounded (reg : Registry) (client_fd : Int) (epoll_ok : Bool)
    (reg1 : Registry) (evs : List Event) (hb : buf_bounded reg)
    (h : accept_client reg client_fd epoll_ok = .ok (reg1, evs)) : buf_bounded reg1 := by
  unfold accept_client at h
  split at h
  · cases h
    exact hb
  · unfold add_client at h
    split at h
    · next hadd =>
      split at hadd
      · cases h
        exact hb
      · cases hadd
    · next r2 c hadd =>
      split at hadd
      · cases hadd
      · cases hadd
        have hb2 : buf_bounded (Function.update reg client_fd.toNat (some ⟨client_fd, [], []⟩)) :=
          buf_bounded_update hb _ _ (Nat.zero_le _)
        split at h
        · rw [reply_ok _ _ _ _ _ _ h]
          exact hb2
        · cases h
          exact buf_bounded_of_keeps hb2 (remove_client_keeps _ _)

theorem read_iter_bounded (reg : Registry) (ci : Nat) (c : Client) (r : ReadResult)
    (out : IterOut) (hc : reg ci = some c) (hb : buf_bounded reg)
    (hr : ∀ data, r = .count data → data.length ≤ read_size c)
    (h : read_iter reg ci r = .ok out) : buf_bounded out.reg := by
  have hcb := hb ci c hc
  cases r with
  | error again =>
    unfold read_iter at h
    rw [hc] at h
    cases again
    · cases h
      exact buf_bounded_of_keeps hb (remove_client_keeps reg (some c))
    · cases h
      exact hb
  | count data =>
    by_cases h0 : data.length = 0
    · unfold read_iter at h
      rw [hc] at h
      dsimp only at h
      rw [if_pos h0] at h
      have hrem := buf_bounded_of_keeps hb (remove_client_keeps reg (some c))
      by_cases hn : c.name ≠ []
      · rw [if_pos hn] at h
        split at h
        · cases h
        · split at h
          · cases h
          · cases h
            exact hrem
      · rw [if_neg hn] at h
        cases h
        exact hrem
    · have h2 := hr data rfl
      rw [read_size_eq c hcb] at h2
      exact (read_iter_data_ok reg ci c data out hc hb (by omega) (by omega) h).2.2.2

/-- Every reachable registry keeps every inbound buffer within `BUF_SIZE - 1` bytes. -/
theorem reachable_buf_bounded (reg : Registry) (h : Reachable reg) : buf_bounded reg := by
  induction h with
  | init =>
    intro i c hc
    cases hc
  | accept reg client_fd epoll_ok reg1 evs _ hacc ih =>
    exact accept_client_bounded reg client_fd epoll_ok reg1 evs ih hacc
  | read reg ci c r out _ hc hr hread ih =>
    exact read_iter_bounded reg ci c r out hc ih hr hread

/-- Claim C9. Inbound buffer bound.  In every reachable registry every connection has
`buf_len ≤ BUF_SIZE - 1`.  When `read` then returns between 1 and the requested
`sizeof(buf) - buf_len - 1` bytes: the new `buf_len` is still at most `BUF_SIZE - 1`, so
the terminator is written inside the buffer; the line extraction loop ends (it does not
run out of fuel); every line handed to `process_line` has between 1 and `BUF_SIZE` bytes;
the local `leftover` is not negative and at most `BUF_SIZE - 1`; and afterwards the
connection, if it is still in the registry, has `buf_len = leftover ≤ BUF_SIZE - 1`. -/
theorem inbound_buffer_bound (reg : Registry) (hreach : Reachable reg) (ci : Nat)
    (c : Client) (hc : reg ci = some c) :
    c.buf.length ≤ BUF_SIZE - 1 ∧
    ∀ data : List Byte, 1 ≤ data.length → data.length ≤ read_size c →
      c.buf.length + data.length ≤ BUF_SIZE - 1 ∧
      read_iter reg ci (.count data) ≠ .error .fuel ∧
      ∀ out, read_iter reg ci (.count data) = .ok out →
        (∀ l ∈ out.calls, 1 ≤ l.length ∧ l.length ≤ BUF_SIZE) ∧
        (∀ lo, out.leftover = some lo → 0 ≤ lo ∧ lo ≤ ((BUF_SIZE - 1 : Nat) : Int)) ∧
        (∀ lo c2, out.leftover = some lo → out.reg ci = some c2 →
          (c2.buf.length : Int) = lo) ∧
        (∀ c2, out.reg ci = some c2 → c2.buf.length ≤ BUF_SIZE - 1) := by
  have hb := reachable_buf_bounded reg hreach
  have hcb := hb ci c hc
  refine ⟨hcb, ?_⟩
  intro data h1 h2
  rw [read_size_eq c hcb] at h2
  have h3 : c.buf.length + data.length ≤ BUF_SIZE - 1 := by omega
  refine ⟨h3, ?_, ?_⟩
  · intro hf
    have := read_iter_error reg ci _ _ hf
    cases this
  · intro out hout
    obtain ⟨ha, hb1, hc1, hd⟩ := read_iter_data_ok reg ci c data out hc hb h1 h3 hout
    exact ⟨ha, hb1, hc1, fun c2 hc2 => hd ci c2 hc2⟩

/-! ## Fragmentation -/

theorem line_loop_no_newline (reg : Registry) (ci : Nat) (buf : List Byte) (fuel : Nat)
    (h : ∀ b ∈ buf, b ≠ 10) :
    line_loop (fuel + 1) reg ci buf 0 = .ok ⟨reg, [], [], some 0⟩ := by
  unfold line_loop
  rw [List.drop_zero, strchr_none_of_not_mem 10 buf h]

theorem line_loop_single (reg : Registry) (ci : Nat) (s : List Byte)
    (hs : ∀ b ∈ s, b ≠ 10 ∧ b ≠ 0) (hlen : s.length + 1 ≤ BUF_SIZE) :
    line_loop ((s ++ [10]).length + 1) reg ci (s ++ [10]) 0 =
      match process_line reg ci (s ++ [10]) with
      | .error e => .error e
      | .ok (r, evs) =>
        if strncmp_zero (s ++ [10]) (str "/quit") 5 then
          .ok ⟨remove_client r (r ci), evs, [s ++ [10]], none⟩
        else .ok ⟨r, evs, [s ++ [10]], some (s.length + 1)⟩ := by
  have hl : (s ++ [10]).length = s.length + 1 := by simp
  have htake : (s ++ [10]).take (s.length + 1) = s ++ [10] :=
    List.take_of_length_le (by rw [hl])
  rw [hl]
  unfold line_loop
  rw [List.drop_zero, strchr_append 10 [] s hs]
  dsimp only
  rw [if_neg (by omega), htake]
  unfold dispatch_line
  cases hp : process_line reg ci (s ++ [10]) with
  | error e => rfl
  | ok x =>
    obtain ⟨r, evs⟩ := x
    dsimp only
    by_cases hq : strncmp_zero (s ++ [10]) (str "/quit") 5 = true
    · rw [if_pos hq, if_pos hq]
    · rw [if_neg hq, if_neg hq]
      dsimp only
      unfold line_loop
      have hd : (s ++ [10]).drop (0 + s.length + 1) = [] :=
        List.drop_of_length_le (by rw [hl]; omega)
      rw [hd]
      simp [strchr]

/-- Claim C3 (amended). Fragmentation transparency.  The line `s ++ "\n"` (no newline and no
NUL in `s`, at most `BUF_SIZE - 2` bytes) reaches a connection with an empty inbound
buffer in two non-empty reads.  The first read calls `process_line` not at all, sends
nothing and keeps the chunk.  The second read does exactly what a single read of the whole
line does, and that is: one call of `process_line`, with `s ++ "\n"`; then, if the line
begins with `/quit`, the connection is removed, and otherwise its inbound buffer is left
empty (`buf_len = leftover = 0`) and the read loop goes on. -/
theorem fragmentation_transparent (reg : Registry) (ci : Nat) (c : Client) (s : List Byte)
    (k : Nat) (hc : reg ci = some c) (hempty : c.buf = [])
    (hs : ∀ b ∈ s, b ≠ 10 ∧ b ≠ 0) (hlen : s.length ≤ BUF_SIZE - 2)
    (hk0 : 0 < k) (hk : k ≤ s.length) :
    read_iter reg ci (.count ((s ++ [10]).take k))
      = .ok ⟨Function.update reg ci (some { c with buf := (s ++ [10]).take k }),
          [], [], some (k : Int), true⟩ ∧
    read_iter (Function.update reg ci (some { c with buf := (s ++ [10]).take k })) ci
        (.count ((s ++ [10]).drop k))
      = read_iter reg ci (.count (s ++ [10])) ∧
    read_iter reg ci (.count (s ++ [10])) =
      match process_line (Function.update reg ci (some { c with buf := s ++ [10] })) ci
          (s ++ [10]) with
      | .error e => .error e
      | .ok (r, evs) =>
        if str "/quit" <+: s ++ [10] then
          .ok ⟨remove_client r (r ci), evs, [s ++ [10]], none, false⟩
        else
          .ok ⟨Function.update r ci ((r ci).map (fun c2 => { c2 with buf := [] })),
            evs, [s ++ [10]], some 0, true⟩ := by
  have hlen1 : s.length + 1 ≤ BUF_SIZE := by simp only [BUF_SIZE] at *; omega
  have hl : (s ++ [10]).length = s.length + 1 := by simp
  have htk : (s ++ [10]).take k = s.take k := List.take_append_of_le_length hk
  have htkl : (s.take k).length = k := by rw [List.length_take]; omega
  refine ⟨?_, ?_, ?_⟩
  · rw [htk]
    unfold read_iter
    rw [hc]
    dsimp only
    rw [if_neg (by omega), hempty, List.nil_append,
      line_loop_no_newline _ _ _ _ (fun b hb => (hs b (List.mem_of_mem_take hb)).1)]
    dsimp only
    rw [Function.update_same]
    dsimp only
    rw [Function.update_idem, htkl]
    simp [List.take_take]
  · unfold read_iter
    rw [hc, Function.update_same]
    dsimp only
    have hd : ((s ++ [10]).drop k).length ≠ 0 := by rw [List.length_drop, hl]; omega
    have hw : (s ++ [10]).length ≠ 0 := by rw [hl]; omega
    rw [if_neg hd, if_neg hw, hempty, List.nil_append, List.take_append_drop,
      Function.update_idem]
  · unfold read_iter
    rw [hc]
    dsimp only
    have hw : (s ++ [10]).length ≠ 0 := by rw [hl]; omega
    rw [if_neg hw, hempty, List.nil_append, line_loop_single _ _ _ hs hlen1]
    have hq : strncmp_zero (s ++ [10]) (str "/quit") 5 = true ↔ str "/quit" <+: s ++ [10] :=
      strncmp_zero_iff_starts _ (str "/quit") (by decide)
    cases hp : process_line (Function.update reg ci (some { c with buf := s ++ [10] })) ci
        (s ++ [10]) with
    | error e => rfl
    | ok x =>
      obtain ⟨r, evs⟩ := x
      dsimp only
      by_cases hquit : str "/quit" <+: s ++ [10]
      · rw [if_pos (hq.mpr hquit), if_pos hquit]
      · rw [if_neg (fun h => hquit (hq.mp h)), if_neg hquit]
        dsimp only
        obtain ⟨c1, _, hr⟩ := process_line_ok _ _ _ _ _ hp
        have hsome : ∃ c2, r ci = some c2 := by
          rcases hr with hr | ⟨n, _, hr⟩
          · rw [hr, Function.update_same]; exact ⟨_, rfl⟩
          · rw [hr, Function.update_same]; exact ⟨_, rfl⟩
        obtain ⟨c2, hc2⟩ := hsome
        rw [hc2]
        simp [hl]

/-! ## A full inbound buffer -/

theorem str_length_server : (str "SERVER: ").length = 8 := rfl
theorem str_length_disconnected : (str " disconnected\n").length = 14 := rfl

theorem remove_client_wf (reg : Registry) (hwf : wf reg) (ci : Nat) (c : Client)
    (hc : reg ci = some c) : remove_client reg (some c) = Function.update reg ci none := by
  obtain ⟨hlt, hfd, _⟩ := hwf ci c hc
  unfold remove_client
  dsimp only
  rw [hfd, if_pos ⟨by omega, by exact_mod_cast hlt⟩, Int.toNat_ofNat]

/-- A read count of 0 is handled as a disconnect: the others are told, when the
connection has a nickname, and the slot is emptied. -/
theorem read_iter_zero (reg : Registry) (hwf : wf reg) (ci : Nat) (c : Client)
    (hc : reg ci = some c) :
    read_iter reg ci (.count []) = .ok ⟨Function.update reg ci none,
      if c.name = [] then []
      else ((List.range MAX_FDS).filter (fun i => decide (i ≠ ci) && (reg i).isSome)).map
        (fun (i : Nat) =>
          (⟨(i : Int), str "SERVER: " ++ c.name ++ str " disconnected\n"⟩ : Event)),
      [], none, false⟩ := by
  obtain ⟨_, hfd, hlen31, hnn⟩ := hwf ci c hc
  unfold read_iter
  rw [hc]
  dsimp only
  rw [if_pos List.length_nil, remove_client_wf reg hwf ci c hc]
  by_cases hn : c.name = []
  · rw [if_neg (not_not.mpr hn), if_pos hn]
  · rw [if_pos hn, if_neg hn, cstr_of_no_nul hnn, snprintf_fits]
    · dsimp only
      rw [broadcast_except_text, hfd, broadcast_events_wf reg hwf]
    · simp only [List.length_append, str_length_server, str_length_disconnected]
      simp only [MAX_NAME] at hlen31
      omega

theorem wf_update_buf (reg : Registry) (hwf : wf reg) (ci : Nat) (c : Client)
    (hc : reg ci = some c) (buf : List Byte) :
    wf (Function.update reg ci (some { c with buf := buf })) := by
  intro i x hx
  by_cases hi : i = ci
  · rw [hi, Function.update_same] at hx
    cases hx
    rw [hi]
    exact hwf ci c hc
  · rw [Function.update_noteq hi] at hx
    exact hwf i x hx

/-- Claim C10 (amended). Overflow of the inbound buffer.  A read brings the unterminated
input of a connection to `BUF_SIZE - 1` bytes.  The read loop goes round again and asks
`read` for 0 bytes; the count 0 it gets is handled as a disconnect: every other connection
is handed `"SERVER: <name> disconnected\n"` when the connection has a nickname, and the
connection is removed from the registry.  Nothing is truncated and no line is handed to
`process_line`. -/
theorem full_buffer_is_torn_down (reg : Registry) (hwf : wf reg) (ci : Nat) (c : Client)
    (hc : reg ci = some c) (data : List Byte) (hdata : data ≠ [])
    (hfull : (c.buf ++ data).length = BUF_SIZE - 1) (hnl : ∀ b ∈ c.buf ++ data, b ≠ 10)
    (rs : List ReadResult) :
    read_size { c with buf := c.buf ++ data } = 0 ∧
    read_loop reg ci (.count data :: .count [] :: rs) = .ok (Function.update reg ci none,
      (if c.name = [] then []
       else ((List.range MAX_FDS).filter (fun i => decide (i ≠ ci) && (reg i).isSome)).map
        (fun (i : Nat) =>
          (⟨(i : Int), str "SERVER: " ++ c.name ++ str " disconnected\n"⟩ : Event))),
      []) := by
  constructor
  · rw [read_size_eq _ (by dsimp only; omega)]
    dsimp only
    omega
  · have hd0 : data.length ≠ 0 := fun h => hdata (List.length_eq_zero.mp h)
    have h1 : read_iter reg ci (.count data)
        = .ok ⟨Function.update reg ci (some { c with buf := c.buf ++ data }), [], [],
            some ((BUF_SIZE - 1 : Nat) : Int), true⟩ := by
      unfold read_iter
      rw [hc]
      dsimp only
      rw [if_neg hd0, line_loop_no_newline _ _ _ _ hnl]
      dsimp only
      rw [Function.update_same]
      dsimp only
      rw [Function.update_idem, hfull]
      simp only [Nat.cast_zero, sub_zero, ne_eq, not_true_eq_false, and_false, if_false,
        Int.toNat_ofNat]
      rw [List.take_of_length_le (by omega)]
    have hwf1 := wf_update_buf reg hwf ci c hc (c.buf ++ data)
    have h2 := read_iter_zero _ hwf1 ci _ (Function.update_same _ _ _)
    rw [Function.update_idem] at h2
    have hsame : ∀ i, (Function.update reg ci (some { c with buf := c.buf ++ data }) i).isSome
        = (reg i).isSome := by
      intro i
      by_cases hi : i = ci
      · rw [hi, Function.update_same, hc]; rfl
      · rw [Function.update_noteq hi]
    simp only [hsame] at h2
    unfold read_loop
    rw [h1]
    dsimp only
    rw [if_pos rfl]
    unfold read_loop
    rw [h2]
    dsimp only
    simp

/-! ## Well-formedness is invariant -/

theorem accept_client_wf (reg : Registry) (client_fd : Int) (epoll_ok : Bool)
    (reg1 : Registry) (evs : List Event) (hwf : wf reg)
    (h : accept_client reg client_fd epoll_ok = .ok (reg1, evs)) : wf reg1 := by
  unfold accept_client at h
  split at h
  · cases h
    exact hwf
  · next hmax =>
    unfold add_client at h
    split at h
    · next hadd =>
      split at hadd
      · cases h
        exact hwf
      · cases hadd
    · next r2 c hadd =>
      split at hadd
      · cases hadd
      · next hrange =>
        cases hadd
        have hwf2 : wf (Function.update reg client_fd.toNat (some ⟨client_fd, [], []⟩)) := by
          intro i x hx
          by_cases hi : i = client_fd.toNat
          · rw [hi, Function.update_same] at hx
            cases hx
            refine ⟨?_, ?_, Nat.zero_le _, fun b hb => by cases hb⟩
            · rw [hi]; omega
            · rw [hi]
              dsimp only
              omega
          · rw [Function.update_noteq hi] at hx
            exact hwf i x hx
        split at h
        · rw [reply_ok _ _ _ _ _ _ h]
          exact hwf2
        · cases h
          exact wf_of_keeps hwf2 (remove_client_keeps _ _)

theorem read_iter_wf (reg : Registry) (ci : Nat) (r : ReadResult) (out : IterOut)
    (hwf : wf reg) (h : read_iter reg ci r = .ok out) : wf out.reg := by
  unfold read_iter at h
  cases hc : reg ci with
  | none => rw [hc] at h; cases h
  | some c =>
    rw [hc] at h
    dsimp only at h
    have hrem := wf_of_keeps hwf (remove_client_keeps reg (some c))
    cases r with
    | error again =>
      cases again
      · cases h
        exact hrem
      · cases h
        exact hwf
    | count data =>
      dsimp only at h
      by_cases h0 : data.length = 0
      · rw [if_pos h0] at h
        by_cases hn : c.name ≠ []
        · rw [if_pos hn] at h
          split at h
          · cases h
          · split at h
            · cases h
            · cases h
              exact hrem
        · rw [if_neg hn] at h
          cases h
          exact hrem
      · rw [if_neg h0] at h
        have hwf1 := wf_update_buf reg hwf ci c hc (c.buf ++ data)
        cases hl : line_loop ((c.buf ++ data).length + 1)
            (Function.update reg ci (some { c with buf := c.buf ++ data })) ci (c.buf ++ data) 0 with
        | error e1 => rw [hl] at h; cases h
        | ok lo =>
          rw [hl] at h
          dsimp only at h
          have hwf2 := wf_of_keeps hwf1 (line_loop_ok ci _ _ _ 0 lo hl (Nat.zero_le _)).1
          cases hst : lo.start with
          | none =>
            rw [hst] at h
            cases h
            exact hwf2
          | some start =>
            rw [hst] at h
            dsimp only at h
            cases hc2 : lo.reg ci with
            | none => rw [hc2] at h; cases h
            | some c2 =>
              rw [hc2] at h
              cases h
              exact wf_update_buf lo.reg hwf2 ci c2 hc2 _

/-- Every reachable registry is well formed: a record sits in the slot of its descriptor
and its nickname is a NUL-free string of at most `MAX_NAME - 1` bytes. -/
theorem reachable_wf (reg : Registry) (h : Reachable reg) : wf reg := by
  induction h with
  | init =>
    intro i c hc
    cases hc
  | accept reg client_fd epoll_ok reg1 evs _ hacc ih =>
    exact accept_client_wf reg client_fd epoll_ok reg1 evs ih hacc
  | read reg ci c r out _ _ _ hread ih =>
    exact read_iter_wf reg ci r out ih hread

/-! ## Instances -/

/-- Witness of `fragmentation_transparent`: the spec's `NICK ali` followed by `ce\n`, sent
by the unregistered connection in slot 7. -/
theorem fragmentation_transparent_witness :
    read_iter reg_sample 7 (.count (str "NICK ali"))
      = .ok ⟨Function.update reg_sample 7 (some ⟨7, [], str "NICK ali"⟩), [], [], some 8, true⟩ ∧
    read_iter (Function.update reg_sample 7 (some ⟨7, [], str "NICK ali"⟩)) 7
        (.count (str "ce\n"))
      = read_iter reg_sample 7 (.count (str "NICK alice\n")) :=
  ⟨(fragmentation_transparent reg_sample 7 ⟨7, [], []⟩ (str "NICK alice") 8 rfl rfl
      (by decide) (by decide) (by decide) (by decide)).1,
   (fragmentation_transparent reg_sample 7 ⟨7, [], []⟩ (str "NICK alice") 8 rfl rfl
      (by decide) (by decide) (by decide) (by decide)).2.1⟩

/-- Claim C3 as stated fails. The line `/quit\n` reaches the unregistered connection in slot 7
as `/qu` and `it\n`: `process_line` is called once, with `/quit\n`, and afterwards the
connection is not in the registry, so there is no inbound buffer of length 0. -/
theorem fragmented_quit_removed :
    (match read_loop reg_sample 7 [.count (str "/qu"), .count (str "it\n")] with
      | .ok (reg, _, calls) => some (calls, reg 7)
      | .error _ => none)
      = some ([str "/quit\n"], none) := by
  decide

theorem reg_fresh_reachable : Reachable reg_fresh :=
  Reachable.accept (fun _ => none) 5 true reg_fresh
    [⟨5, str "SERVER: please set nickname with: NICK <name"⟩] Reachable.init rfl

/-- Witness of `inbound_buffer_bound`: the first read, `hi\n`, of a freshly accepted
connection. -/
theorem inbound_buffer_bound_witness :
    Reachable reg_fresh ∧ reg_fresh 5 = some ⟨5, [], []⟩ ∧
    (([] : List Byte).length + (str "hi\n").length ≤ BUF_SIZE - 1 ∧
      read_iter reg_fresh 5 (.count (str "hi\n")) ≠ .error .fuel ∧
      ∀ out, read_iter reg_fresh 5 (.count (str "hi\n")) = .ok out →
        (∀ l ∈ out.calls, 1 ≤ l.length ∧ l.length ≤ BUF_SIZE) ∧
        (∀ lo, out.leftover = some lo → 0 ≤ lo ∧ lo ≤ ((BUF_SIZE - 1 : Nat) : Int)) ∧
        (∀ lo c2, out.leftover = some lo → out.reg 5 = some c2 →
          (c2.buf.length : Int) = lo) ∧
        (∀ c2, out.reg 5 = some c2 → c2.buf.length ≤ BUF_SIZE - 1)) :=
  ⟨reg_fresh_reachable, rfl,
    (inbound_buffer_bound reg_fresh reg_fresh_reachable 5 ⟨5, [], []⟩ rfl).2 (str "hi\n")
      (by decide) (by rw [read_size_eq _ (by decide)]; decide)⟩

/-- Witness of `full_buffer_is_torn_down`: `alice` (slot 5) sends 4095 bytes without a
newline. -/
theorem full_buffer_is_torn_down_witness :
    read_size ⟨5, str "alice", List.replicate 4095 97⟩ = 0 ∧
    read_loop reg_sample 5 [.count (List.replicate 4095 97), .count []]
      = .ok (Function.update reg_sample 5 none,
          ((List.range MAX_FDS).filter (fun i => decide (i ≠ 5) && (reg_sample i).isSome)).map
            (fun (i : Nat) => (⟨(i : Int), str "SERVER: alice disconnected\n"⟩ : Event)),
          []) :=
  full_buffer_is_torn_down reg_sample reg_sample_wf 5 ⟨5, str "alice", []⟩ rfl
    (List.replicate 4095 97)
    (by
      intro h
      have hl := congrArg List.length h
      rw [List.length_replicate] at hl
      cases hl)
    (by
      show (([] : List Byte) ++ List.replicate 4095 97).length = BUF_SIZE - 1
      rw [List.nil_append, List.length_replicate]
      rfl)
    (by
      intro b hb
      have hb1 : b ∈ List.replicate 4095 97 := hb
      rw [List.eq_of_mem_replicate hb1]
      decide) []

/-! ## Evaluations at failing inputs -/

/-- Claim C1 fails on the code. Two connections are accepted; the first asks for a nickname
of 31 times `a` followed by `b`, the second for 31 times `a` followed by `c`.  The check
`find_by_name` sees two different 32-byte nicknames, `strncpy` stores the first 31 bytes:
both connections end up registered under the same non-empty name. -/
theorem nickname_uniqueness_broken :
    (match run (fun _ => none)
        [.accepted 5 true, .accepted 6 true,
         .readable 5 [.count (str "NICK aaaaaaaaaaaaaaaaaaaaaaaaaaaaaaab\n"), .error true],
         .readable 6 [.count (str "NICK aaaaaaaaaaaaaaaaaaaaaaaaaaaaaaac\n"), .error true]] with
      | .ok (reg, _) => some ((reg 5).map Client.name, (reg 6).map Client.name)
      | .error _ => none)
      = some (some (str "aaaaaaaaaaaaaaaaaaaaaaaaaaaaaaa"),
              some (str "aaaaaaaaaaaaaaaaaaaaaaaaaaaaaaa")) := by
  decide!

/-- Claim C10 as stated fails. `alice` (slot 5) sends 4095 bytes without a newline.  The
read loop goes round again, `read` is asked for 0 bytes and returns 0, and the server
handles that as a disconnect: the others are told `alice disconnected` and slot 5 is
emptied. -/
theorem full_buffer_disconnects :
    (match read_loop reg_sample 5 [.count (List.replicate 4095 97), .count []] with
      | .ok (reg, evs, _) => some (reg 5, evs)
      | .error _ => none)
      = some (none, [⟨6, str "SERVER: alice disconnected\n"⟩,
                     ⟨7, str "SERVER: alice disconnected\n"⟩]) := by
  decide!

end ChatServer
